import Mathlib

/-!
# pingtest: a shallow embedding of the ping / system-info service

The development follows the Go sources:

* `commands.go` and `internal/commands.go`: `Ping`, `isValidHost`, `GetSystemInfo`
* `main.go`: `handlePing`, `handleGetSystemInfo`

Everything outside the repository that the code calls (the pro-bing library, the
clock, the operating system, the IPv6 half of package `net`) is an explicit
parameter.  The small parts of the Go standard library whose exact output the
properties depend on (`net/http.Error`, `net.IP`, `netip` IPv4 text form,
`unicode/utf8`, `strconv`, `encoding/json` for the two flat result records) are
written out as executable definitions.

Go strings are byte sequences; machine integers are `Int` with the range stated
where it matters.
-/

namespace Pingtest

/-! ## Go strings -/

/-- A Go `byte`. -/
abbrev Byte := Fin 256

/-- A Go `string`: an arbitrary sequence of bytes. -/
abbrev GoString := List Byte

/-- The byte of an ASCII character. -/
def ch (c : Char) : Byte := Fin.ofNat c.toNat

/-- An ASCII string literal of the source as a Go string. -/
def lit (s : String) : GoString := s.toList.map ch

/-- A Go `error` value, identified by its message. -/
structure GoError where
  msg : GoString
deriving DecidableEq, Repr

/-- Go `errors.New`. -/
def errorsNew (text : GoString) : GoError := ⟨text⟩

/-! ## Result records (`commands.go` lines 13-22) -/

/-- Go `PingResult`: `Time` is a `time.Duration` (int64 nanoseconds), `Packets` an `int`. -/
structure PingResult where
  Successful : Bool := false
  Time : Int := 0
  Packets : Int := 0
deriving DecidableEq, Repr

/-- Go `SystemInfo`. -/
structure SystemInfo where
  Hostname : GoString := []
  IPAddress : GoString := []
deriving DecidableEq, Repr

/-! ## The pro-bing library and the clock, as parameters -/

/-- Go `time.Second`, in nanoseconds. -/
def Second : Int := 1000000000

/-- The fields of a pro-bing `Pinger` that `Ping` touches. -/
structure Pinger where
  addr : GoString
  Count : Int
  Timeout : Int
  privileged : Bool
deriving DecidableEq, Repr

/-- The part of pro-bing `Statistics` that `Ping` reads. -/
structure Statistics where
  PacketsRecv : Int
deriving DecidableEq, Repr

/-- The external ICMP library together with the clock.  `NewPinger` resolves the
host (a network call) and may fail; `Run` blocks and may fail; `Since` is the
elapsed time the clock reports around `Run`; `Statistics` is what the pinger has
collected when it is asked. -/
structure Probing where
  NewPinger : GoString → Except GoError Pinger
  Run : Pinger → Option GoError
  Since : Pinger → Int
  Statistics : Pinger → Statistics

/-- The calls a function makes outside the repository, in program order. -/
inductive Event where
  | NewPinger (host : GoString)
  | SetPrivileged (v : Bool)
  | Run (p : Pinger)
  | Statistics (p : Pinger)
  | Hostname
  | InterfaceAddrs
  | LogPrintf (format : GoString) (err : GoError)
deriving DecidableEq, Repr

/-- A Go `(T, error)` return together with the outside calls that were made. -/
structure Outcome (α : Type) where
  val : α
  err : Option GoError
  trace : List Event

/-! ## `Ping` -/

/-- `Ping` of `commands.go` (lines 25-54). -/
def Ping (lib : Probing) (host : GoString) : Outcome PingResult :=
  match lib.NewPinger host with
  | .error err => ⟨{}, some err, [.NewPinger host]⟩
  | .ok pinger =>
    let pinger := { pinger with Count := 4 }
    let pinger := { pinger with Timeout := 10 * Second }
    let err := lib.Run pinger
    let elapsed := lib.Since pinger
    let stats := lib.Statistics pinger
    match err with
    | some e =>
      ⟨{ Successful := false, Time := elapsed, Packets := stats.PacketsRecv }, some e,
        [.NewPinger host, .Run pinger, .Statistics pinger, .LogPrintf (lit "Ping failed: %v") e]⟩
    | none =>
      ⟨{ Successful := decide (stats.PacketsRecv > 0), Time := elapsed,
         Packets := stats.PacketsRecv }, none,
        [.NewPinger host, .Run pinger, .Statistics pinger]⟩

/-- `Ping` of `internal/commands.go` (lines 25-56): as above, with
`pinger.SetPrivileged(true)` right after construction. -/
def internal.Ping (lib : Probing) (host : GoString) : Outcome PingResult :=
  match lib.NewPinger host with
  | .error err => ⟨{}, some err, [.NewPinger host]⟩
  | .ok pinger =>
    let pinger := { pinger with privileged := true }
    let pinger := { pinger with Count := 4 }
    let pinger := { pinger with Timeout := 10 * Second }
    let err := lib.Run pinger
    let elapsed := lib.Since pinger
    let stats := lib.Statistics pinger
    match err with
    | some e =>
      ⟨{ Successful := false, Time := elapsed, Packets := stats.PacketsRecv }, some e,
        [.NewPinger host, .SetPrivileged true, .Run pinger, .Statistics pinger,
         .LogPrintf (lit "Ping failed: %v") e]⟩
    | none =>
      ⟨{ Successful := decide (stats.PacketsRecv > 0), Time := elapsed,
         Packets := stats.PacketsRecv }, none,
        [.NewPinger host, .SetPrivileged true, .Run pinger, .Statistics pinger]⟩

/-! ## Package `net`: addresses -/

/-- Go `net.IP`, a byte slice; the nil slice is the empty list. -/
abbrev IP := List Byte

/-- The dynamic types an element of `net.InterfaceAddrs()` (a `net.Addr`) can
have: `*net.IPNet`, or another address type such as `*net.IPAddr`. -/
inductive Addr where
  | IPNet (ip : IP) (mask : List Byte)
  | IPAddr (ip : IP) (zone : GoString)
deriving DecidableEq, Repr

/-- The IPv6 half of package `net`/`netip`, which no path of this program
depends on in detail: the text form of a 16-byte address that is not
IPv4-mapped, and the IPv6 text reader (address and zone). -/
structure NetV6 where
  format : IP → GoString
  parseAddr : GoString → Option (IP × GoString)

/-- Go `isZeros`. -/
def isZeros (p : List Byte) : Bool := p.all (fun b => b.val = 0)

/-- Go `IP.To4`: `none` is the nil result. -/
def To4 (ip : IP) : Option IP :=
  if ip.length = 4 then some ip
  else if ip.length = 16 ∧ isZeros (ip.take 10) = true ∧ ip.get? 10 = some 0xff
      ∧ ip.get? 11 = some 0xff then
    some (ip.drop 12)
  else none

/-- Go `net.IPv6loopback`, `::1`. -/
def IPv6loopback : IP := [0, 0, 0, 0, 0, 0, 0, 0, 0, 0, 0, 0, 0, 0, 0, 1]

/-- Go `v4InV6Prefix`. -/
def v4InV6Prefix : List Byte := [0, 0, 0, 0, 0, 0, 0, 0, 0, 0, 0xff, 0xff]

/-- Go `IP.Equal`. -/
def IPEqual (ip x : IP) : Bool :=
  if ip.length = x.length then decide (ip = x)
  else if ip.length = 4 ∧ x.length = 16 then
    decide (x.take 12 = v4InV6Prefix) && decide (ip = x.drop 12)
  else if ip.length = 16 ∧ x.length = 4 then
    decide (ip.take 12 = v4InV6Prefix) && decide (ip.drop 12 = x)
  else false

/-- Go `IP.IsLoopback`. -/
def IsLoopback (ip : IP) : Bool :=
  match To4 ip with
  | some ip4 => decide (ip4.head? = some 127)
  | none => IPEqual ip IPv6loopback

/-- The ASCII digit of a value below ten. -/
def digit (d : Nat) : Byte := Fin.ofNat (48 + d % 10)

/-- Go `netip.appendDecimal`: a `uint8` in decimal, without leading zeros. -/
def appendDecimal (b : GoString) (x : Byte) : GoString :=
  let b := if x.val ≥ 100 then b ++ [digit (x.val / 100)] else b
  let b := if x.val ≥ 10 then b ++ [digit (x.val / 10 % 10)] else b
  b ++ [digit (x.val % 10)]

/-- Go `netip.Addr.appendTo4`, on the four bytes of an IPv4 address. -/
def appendTo4 (ret : GoString) (p4 : IP) : GoString :=
  let ret := appendDecimal ret (p4.getD 0 0)
  let ret := ret ++ [ch '.']
  let ret := appendDecimal ret (p4.getD 1 0)
  let ret := ret ++ [ch '.']
  let ret := appendDecimal ret (p4.getD 2 0)
  let ret := ret ++ [ch '.']
  appendDecimal ret (p4.getD 3 0)

/-- Go `hexDigit` lookup. -/
def hexDigit (n : Nat) : Byte :=
  if n % 16 < 10 then Fin.ofNat (48 + n % 16) else Fin.ofNat (87 + n % 16)

/-- Go `net.hexString`. -/
def hexString (b : List Byte) : GoString :=
  b.flatMap (fun tn => [hexDigit (tn.val / 16), hexDigit (tn.val % 16)])

/-- Go `IP.String`. -/
def IPString (v6 : NetV6) (ip : IP) : GoString :=
  if ip.length = 0 then lit "<nil>"
  else if ip.length ≠ 4 ∧ ip.length ≠ 16 then lit "?" ++ hexString ip
  else
    match To4 ip with
    | some p4 => if p4.length = 4 then appendTo4 [] p4 else v6.format ip
    | none => v6.format ip

/-- Loop state of Go `netip.parseIPv4`. -/
structure V4State where
  fields : List Byte
  val : Nat
  pos : Nat
  digLen : Nat
deriving DecidableEq, Repr

/-- The loop of Go `netip.parseIPv4` from index `i` on: `prev` is `s[i-1]` (absent
when `i = 0`) and the list is `s[i:]`. -/
def parseIPv4Loop : Option Byte → List Byte → V4State → Option V4State
  | _, [], st => some st
  | prev, c :: rest, st =>
    if 48 ≤ c.val ∧ c.val ≤ 57 then
      if st.digLen = 1 ∧ st.val = 0 then none
      else
        let val := st.val * 10 + c.val - 48
        if val > 255 then none
        else parseIPv4Loop (some c) rest { st with val := val, digLen := st.digLen + 1 }
    else if c = ch '.' then
      if prev = none ∨ rest = [] ∨ prev = some (ch '.') then none
      else if st.pos = 3 then none
      else parseIPv4Loop (some c) rest
        { fields := st.fields.set st.pos (Fin.ofNat st.val), val := 0, pos := st.pos + 1,
          digLen := 0 }
    else none

/-- Go `netip.parseIPv4`: the four bytes of a dotted-decimal address. -/
def parseIPv4 (s : GoString) : Option IP :=
  match parseIPv4Loop none s { fields := [0, 0, 0, 0], val := 0, pos := 0, digLen := 0 } with
  | none => none
  | some st => if st.pos < 3 then none else some (st.fields.set 3 (Fin.ofNat st.val))

/-- Go `netip.ParseAddr` followed by the zone test and `As16` of `net.parseIP`:
the first of `.`, `:` and `%` in the text selects the reader. -/
def ParseIP (v6 : NetV6) (s : GoString) : Option IP :=
  match s.find? (fun b => b = ch '.' ∨ b = ch ':' ∨ b = ch '%') with
  | none => none
  | some b =>
    if b = ch '.' then (parseIPv4 s).map (fun p4 => v4InV6Prefix ++ p4)
    else if b = ch ':' then
      match v6.parseAddr s with
      | some (ip, zone) => if zone = [] then some ip else none
      | none => none
    else none

/-- Go `strings.ContainsAny` for a set of ASCII characters: some byte of `s` is
one of `chars`. -/
def ContainsAny (s chars : GoString) : Bool := s.any (fun b => chars.contains b)

/-! ## `isValidHost` and `GetSystemInfo` -/

/-- `isValidHost` of `commands.go` (lines 57-65). -/
def isValidHost (v6 : NetV6) (host : GoString) : Bool :=
  if (ParseIP v6 host).isSome then true
  else !ContainsAny host (lit " \t\n\r;|&`<>")

/-- The operating system as `GetSystemInfo` sees it: `os.Hostname()` and
`net.InterfaceAddrs()`. -/
structure OS where
  Hostname : Except GoError GoString
  InterfaceAddrs : Except GoError (List Addr)

/-- The address loop of `GetSystemInfo` (`commands.go` lines 79-87): the value of
`ipAddress` when the loop is left. -/
def scanAddrs (v6 : NetV6) : List Addr → GoString
  | [] => []
  | addr :: rest =>
    match addr with
    | .IPNet ip _ =>
      if !IsLoopback ip then
        if (To4 ip).isSome then IPString v6 ip
        else scanAddrs v6 rest
      else scanAddrs v6 rest
    | _ => scanAddrs v6 rest

/-- `GetSystemInfo` of `commands.go` (lines 68-97) and of `internal/commands.go`
(lines 59-88), which are the same text. -/
def GetSystemInfo (v6 : NetV6) (os : OS) : Outcome SystemInfo :=
  match os.Hostname with
  | .error err => ⟨{}, some err, [.Hostname]⟩
  | .ok hostname =>
    match os.InterfaceAddrs with
    | .error err => ⟨{}, some err, [.Hostname, .InterfaceAddrs]⟩
    | .ok addrs =>
      let ipAddress := scanAddrs v6 addrs
      if ipAddress = [] then
        ⟨{}, some (errorsNew (lit "no IP address found")), [.Hostname, .InterfaceAddrs]⟩
      else
        ⟨{ Hostname := hostname, IPAddress := ipAddress }, none, [.Hostname, .InterfaceAddrs]⟩

/-! ## Package `unicode/utf8` -/

/-- Go `utf8.RuneError`, U+FFFD. -/
def RuneError : Nat := 0xFFFD

/-- Go `utf8.first`: information about the first byte of an encoding (`as` is
`0xF0`, `xx` is `0xF1`; otherwise the low three bits are the size and the high
four bits index `acceptRanges`). -/
def first (b : Byte) : Nat :=
  if b.val < 0x80 then 0xF0
  else if b.val < 0xC2 then 0xF1
  else if b.val < 0xE0 then 0x02
  else if b.val = 0xE0 then 0x13
  else if b.val < 0xED then 0x03
  else if b.val = 0xED then 0x23
  else if b.val < 0xF0 then 0x03
  else if b.val = 0xF0 then 0x34
  else if b.val < 0xF4 then 0x04
  else if b.val = 0xF4 then 0x44
  else 0xF1

/-- Go `utf8.acceptRanges`: the allowed range of the second byte. -/
def acceptRanges (i : Nat) : Nat × Nat :=
  match i with
  | 0 => (0x80, 0xBF)
  | 1 => (0xA0, 0xBF)
  | 2 => (0x80, 0x9F)
  | 3 => (0x90, 0xBF)
  | 4 => (0x80, 0x8F)
  | _ => (0, 0)

/-- Go `utf8.DecodeRune` / `DecodeRuneInString`: the rune and its width in bytes.
`p0 & mask` is written `% 2^k`, `<< 6` is `* 64`, and `|` of disjoint bit fields
is `+`. -/
def DecodeRune (p : List Byte) : Nat × Nat :=
  match p with
  | [] => (RuneError, 0)
  | p0 :: t =>
    let x := first p0
    if x ≥ 0xF0 then
      (if x % 2 = 0 then p0.val else RuneError, 1)
    else
      let sz := x % 8
      let accept := acceptRanges (x / 16)
      if p.length < sz then (RuneError, 1)
      else
        match t with
        | [] => (RuneError, 1)
        | b1 :: t1 =>
          if b1.val < accept.1 ∨ accept.2 < b1.val then (RuneError, 1)
          else if sz ≤ 2 then (p0.val % 32 * 64 + b1.val % 64, 2)
          else
            match t1 with
            | [] => (RuneError, 1)
            | b2 :: t2 =>
              if b2.val < 0x80 ∨ 0xBF < b2.val then (RuneError, 1)
              else if sz ≤ 3 then
                (p0.val % 16 * 4096 + b1.val % 64 * 64 + b2.val % 64, 3)
              else
                match t2 with
                | [] => (RuneError, 1)
                | b3 :: _ =>
                  if b3.val < 0x80 ∨ 0xBF < b3.val then (RuneError, 1)
                  else
                    (p0.val % 8 * 262144 + b1.val % 64 * 4096 + b2.val % 64 * 64
                      + b3.val % 64, 4)

/-- Go `utf8.EncodeRune` / `AppendRune` for a non-negative rune value. -/
def EncodeRune (r : Nat) : List Byte :=
  if r ≤ 0x7F then [Fin.ofNat r]
  else if r ≤ 0x7FF then [Fin.ofNat (0xC0 + r / 64), Fin.ofNat (0x80 + r % 64)]
  else if r > 0x10FFFF ∨ (0xD800 ≤ r ∧ r ≤ 0xDFFF) then [0xEF, 0xBF, 0xBD]
  else if r ≤ 0xFFFF then
    [Fin.ofNat (0xE0 + r / 4096), Fin.ofNat (0x80 + r / 64 % 64), Fin.ofNat (0x80 + r % 64)]
  else
    [Fin.ofNat (0xF0 + r / 262144), Fin.ofNat (0x80 + r / 4096 % 64),
     Fin.ofNat (0x80 + r / 64 % 64), Fin.ofNat (0x80 + r % 64)]

/-- Go `utf8.ValidString`, as the decoding loop: no position decodes to
`(RuneError, 1)`.  The fuel is the number of bytes left. -/
def validLoop : Nat → List Byte → Bool
  | 0, s => s.isEmpty
  | fuel + 1, s =>
    match s with
    | [] => true
    | _ :: _ =>
      let d := DecodeRune s
      if d.1 = RuneError ∧ d.2 = 1 then false
      else validLoop fuel (s.drop d.2)

/-- Go `utf8.ValidString`. -/
def ValidString (s : GoString) : Bool := validLoop s.length s

/-! ## Package `strconv`: decimal integers -/

/-- Go `strconv.formatBits` in base ten, one digit per step; a 64-bit value has at
most twenty digits. -/
def formatBits : Nat → Nat → GoString → GoString
  | 0, _, acc => acc
  | fuel + 1, u, acc =>
    if u ≥ 10 then formatBits fuel (u / 10) (digit (u % 10) :: acc)
    else digit u :: acc

/-- Go `strconv.AppendInt(b, i, 10)` for an `int64`. -/
def AppendInt (b : GoString) (i : Int) : GoString :=
  if i < 0 then b ++ ch '-' :: formatBits 20 (-i).toNat []
  else b ++ formatBits 20 i.toNat []

/-! ## Package `encoding/json`: encoding the two result records -/

/-- Go `htmlSafeSet`: the ASCII bytes the encoder copies unescaped when HTML
escaping is on (the default of `json.Encoder`). -/
def htmlSafe (b : Byte) : Bool :=
  decide (0x20 ≤ b.val ∧ b.val < 0x80 ∧ b.val ≠ 34 ∧ b.val ≠ 38 ∧ b.val ≠ 60 ∧ b.val ≠ 62
    ∧ b.val ≠ 92)

/-- The escape the encoder writes for an ASCII byte outside `htmlSafeSet`. -/
def escapeByte (b : Byte) : GoString :=
  if b.val = 92 ∨ b.val = 34 then [92, b]
  else if b.val = 8 then [92, ch 'b']
  else if b.val = 12 then [92, ch 'f']
  else if b.val = 10 then [92, ch 'n']
  else if b.val = 13 then [92, ch 'r']
  else if b.val = 9 then [92, ch 't']
  else [92, ch 'u', ch '0', ch '0', hexDigit (b.val / 16), hexDigit (b.val % 16)]

/-- The loop of Go `encoding/json.appendString` with `escapeHTML = true`, from
index `i` on (`src` is the rest of the string); the fuel is the number of bytes
left. -/
def appendStringLoop : Nat → List Byte → GoString
  | 0, _ => []
  | fuel + 1, src =>
    match src with
    | [] => []
    | b :: rest =>
      if b.val < 0x80 then
        if htmlSafe b then b :: appendStringLoop fuel rest
        else escapeByte b ++ appendStringLoop fuel rest
      else
        let d := DecodeRune (src.take 4)
        if d.1 = RuneError ∧ d.2 = 1 then
          [92, ch 'u', ch 'f', ch 'f', ch 'f', ch 'd'] ++ appendStringLoop fuel rest
        else if d.1 = 0x2028 ∨ d.1 = 0x2029 then
          [92, ch 'u', ch '2', ch '0', ch '2', hexDigit (d.1 % 16)]
            ++ appendStringLoop fuel (src.drop d.2)
        else src.take d.2 ++ appendStringLoop fuel (src.drop d.2)

/-- Go `encoding/json.appendString`: a quoted JSON string. -/
def appendString (dst : GoString) (src : GoString) : GoString :=
  dst ++ 34 :: appendStringLoop src.length src ++ [34]

/-- The JSON text of a Go `bool`. -/
def appendBool (dst : GoString) (b : Bool) : GoString :=
  if b then dst ++ lit "true" else dst ++ lit "false"

/-- Go `json.Marshal` of a `PingResult`, by its field tags
`successful`, `time`, `packets`. -/
def MarshalPingResult (r : PingResult) : GoString :=
  let b : GoString := [123]
  let b := appendBool (b ++ lit "\"successful\":") r.Successful
  let b := AppendInt (b ++ lit ",\"time\":") r.Time
  let b := AppendInt (b ++ lit ",\"packets\":") r.Packets
  b ++ [125]

/-- Go `json.Marshal` of a `SystemInfo`, by its field tags `hostname`,
`ip_address`. -/
def MarshalSystemInfo (s : SystemInfo) : GoString :=
  let b : GoString := [123]
  let b := appendString (b ++ lit "\"hostname\":") s.Hostname
  let b := appendString (b ++ lit ",\"ip_address\":") s.IPAddress
  b ++ [125]

/-! ## Package `encoding/json`: decoding -/

/-- Go `isSpace` of the JSON scanner. -/
def isSpace (c : Byte) : Bool :=
  decide (c.val = 32 ∨ c.val = 9 ∨ c.val = 13 ∨ c.val = 10)

/-- Skips JSON white space. -/
def skipSpace : List Byte → List Byte
  | [] => []
  | c :: r => if isSpace c then skipSpace r else c :: r

/-- The value of a hexadecimal digit. -/
def hexVal (c : Byte) : Option Nat :=
  if 48 ≤ c.val ∧ c.val ≤ 57 then some (c.val - 48)
  else if 97 ≤ c.val ∧ c.val ≤ 102 then some (c.val - 97 + 10)
  else if 65 ≤ c.val ∧ c.val ≤ 70 then some (c.val - 65 + 10)
  else none

/-- Go `getu4`: the rune of a leading `\uXXXX` escape; `none` is Go's `-1`. -/
def getu4 (s : List Byte) : Option Nat :=
  match s with
  | b0 :: b1 :: a :: b :: c :: d :: _ =>
    if b0.val = 92 ∧ b1.val = 117 then
      match hexVal a, hexVal b, hexVal c, hexVal d with
      | some x3, some x2, some x1, some x0 => some (((x3 * 16 + x2) * 16 + x1) * 16 + x0)
      | _, _, _, _ => none
    else none
  | _ => none

/-- Go `utf16.IsSurrogate`. -/
def IsSurrogate (r : Nat) : Bool := decide (0xD800 ≤ r ∧ r < 0xE000)

/-- Go `utf16.DecodeRune`: the rune of a surrogate pair, U+FFFD when the pair is
not valid. -/
def utf16DecodeRune (r1 r2 : Nat) : Nat :=
  if 0xD800 ≤ r1 ∧ r1 < 0xDC00 ∧ 0xDC00 ≤ r2 ∧ r2 < 0xE000 then
    (r1 - 0xD800) * 1024 + (r2 - 0xDC00) + 0x10000
  else RuneError

/-- Reading a JSON string literal after its opening quote: the scanner's string
states together with Go `unquoteBytes`.  The result is the unquoted string and
the input after the closing quote; `none` is a syntax error.  The fuel is the
number of bytes left. -/
def unquoteLoop : Nat → List Byte → Option (GoString × List Byte)
  | 0, _ => none
  | fuel + 1, s =>
    match s with
    | [] => none
    | c :: r =>
      if c.val = 34 then some ([], r)
      else if c.val = 92 then
        match r with
        | [] => none
        | e :: r2 =>
          if e.val = 34 ∨ e.val = 92 ∨ e.val = 47 then
            (unquoteLoop fuel r2).map (fun p => (e :: p.1, p.2))
          else if e = ch 'b' then (unquoteLoop fuel r2).map (fun p => (8 :: p.1, p.2))
          else if e = ch 'f' then (unquoteLoop fuel r2).map (fun p => (12 :: p.1, p.2))
          else if e = ch 'n' then (unquoteLoop fuel r2).map (fun p => (10 :: p.1, p.2))
          else if e = ch 'r' then (unquoteLoop fuel r2).map (fun p => (13 :: p.1, p.2))
          else if e = ch 't' then (unquoteLoop fuel r2).map (fun p => (9 :: p.1, p.2))
          else if e = ch 'u' then
            match getu4 s with
            | none => none
            | some rr =>
              let r6 := r2.drop 4
              if IsSurrogate rr then
                match getu4 r6 with
                | some rr1 =>
                  if utf16DecodeRune rr rr1 ≠ RuneError then
                    (unquoteLoop fuel (r6.drop 6)).map
                      (fun p => (EncodeRune (utf16DecodeRune rr rr1) ++ p.1, p.2))
                  else
                    (unquoteLoop fuel r6).map (fun p => (EncodeRune RuneError ++ p.1, p.2))
                | none =>
                  (unquoteLoop fuel r6).map (fun p => (EncodeRune RuneError ++ p.1, p.2))
              else (unquoteLoop fuel r6).map (fun p => (EncodeRune rr ++ p.1, p.2))
          else none
      else if c.val < 0x20 then none
      else if c.val < 0x80 then (unquoteLoop fuel r).map (fun p => (c :: p.1, p.2))
      else
        let d := DecodeRune s
        (unquoteLoop fuel (s.drop d.2)).map (fun p => (EncodeRune d.1 ++ p.1, p.2))

/-- A JSON string literal after its opening quote. -/
def scanString (s : List Byte) : Option (GoString × List Byte) := unquoteLoop s.length s

/-- The leading decimal digits of the input, and the rest. -/
def spanDigits : List Byte → List Byte × List Byte
  | [] => ([], [])
  | c :: r =>
    if 48 ≤ c.val ∧ c.val ≤ 57 then ((spanDigits r).1.cons c, (spanDigits r).2)
    else ([], c :: r)

/-- The exponent part of a JSON number (scanner states `stateE`, `stateESign`,
`stateE0`), if there is one. -/
def scanExponent (acc : GoString) (s : List Byte) : Option (GoString × List Byte) :=
  match s with
  | e :: r =>
    if e = ch 'e' ∨ e = ch 'E' then
      match r with
      | g :: r1 =>
        if g = ch '+' ∨ g = ch '-' then
          if (spanDigits r1).1 = [] then none
          else some (acc ++ e :: g :: (spanDigits r1).1, (spanDigits r1).2)
        else if (spanDigits r).1 = [] then none
        else some (acc ++ e :: (spanDigits r).1, (spanDigits r).2)
      | [] => none
    else some (acc, s)
  | [] => some (acc, [])

/-- The fraction part of a JSON number (scanner states `stateDot`, `stateDot0`),
if there is one, then the exponent. -/
def scanFraction (acc : GoString) (s : List Byte) : Option (GoString × List Byte) :=
  match s with
  | c :: r =>
    if c = ch '.' then
      if (spanDigits r).1 = [] then none
      else scanExponent (acc ++ c :: (spanDigits r).1) (spanDigits r).2
    else scanExponent acc s
  | [] => some (acc, [])

/-- A JSON number literal (scanner states `stateNeg`, `state0`, `state1` and on):
its text and the input after it. -/
def scanNumber (s : List Byte) : Option (GoString × List Byte) :=
  match s with
  | [] => none
  | c :: r =>
    if c = ch '-' then
      match r with
      | [] => none
      | d :: r1 =>
        if d = ch '0' then scanFraction [c, d] r1
        else if 49 ≤ d.val ∧ d.val ≤ 57 then
          scanFraction (c :: d :: (spanDigits r1).1) (spanDigits r1).2
        else none
    else if c = ch '0' then scanFraction [c] r
    else if 49 ≤ c.val ∧ c.val ≤ 57 then
      scanFraction (c :: (spanDigits r).1) (spanDigits r).2
    else none

/-- A parsed JSON value; a number keeps its text. -/
inductive JValue where
  | null
  | bool (b : Bool)
  | number (text : GoString)
  | string (s : GoString)
  | array (elems : List JValue)
  | object (members : List (GoString × JValue))

/-- Go `maxNestingDepth` of the JSON scanner. -/
def maxNestingDepth : Nat := 10000

mutual
/-- The JSON scanner on one value that starts at the head of the input (white
space already skipped); `depth` counts the open arrays and objects. -/
def scanValue : Nat → Nat → List Byte → Option (JValue × List Byte)
  | 0, _, _ => none
  | fuel + 1, depth, s =>
    match s with
    | [] => none
    | c :: r =>
      if c.val = 123 then
        if depth + 1 > maxNestingDepth then none
        else
          match skipSpace r with
          | [] => none
          | c1 :: r1 =>
            if c1.val = 125 then some (.object [], r1)
            else scanMembers fuel (depth + 1) (c1 :: r1) []
      else if c.val = 91 then
        if depth + 1 > maxNestingDepth then none
        else
          match skipSpace r with
          | [] => none
          | c1 :: r1 =>
            if c1.val = 93 then some (.array [], r1)
            else scanElements fuel (depth + 1) (c1 :: r1) []
      else if c.val = 34 then (scanString r).map (fun p => (.string p.1, p.2))
      else if c = ch 't' then
        if r.take 3 = lit "rue" then some (.bool true, r.drop 3) else none
      else if c = ch 'f' then
        if r.take 4 = lit "alse" then some (.bool false, r.drop 4) else none
      else if c = ch 'n' then
        if r.take 3 = lit "ull" then some (.null, r.drop 3) else none
      else (scanNumber s).map (fun p => (.number p.1, p.2))
/-- The members of an object from the start of a key on. -/
def scanMembers : Nat → Nat → List Byte → List (GoString × JValue)
    → Option (JValue × List Byte)
  | 0, _, _, _ => none
  | fuel + 1, depth, s, acc =>
    match s with
    | [] => none
    | q :: r =>
      if q.val = 34 then
        match scanString r with
        | none => none
        | some (key, r1) =>
          match skipSpace r1 with
          | [] => none
          | colon :: r2 =>
            if colon.val = 58 then
              match scanValue fuel depth (skipSpace r2) with
              | none => none
              | some (v, r3) =>
                match skipSpace r3 with
                | [] => none
                | sep :: r4 =>
                  if sep.val = 44 then
                    scanMembers fuel depth (skipSpace r4) (acc ++ [(key, v)])
                  else if sep.val = 125 then some (.object (acc ++ [(key, v)]), r4)
                  else none
            else none
      else none
/-- The elements of an array from the start of an element on. -/
def scanElements : Nat → Nat → List Byte → List JValue → Option (JValue × List Byte)
  | 0, _, _, _ => none
  | fuel + 1, depth, s, acc =>
    match scanValue fuel depth s with
    | none => none
    | some (v, r1) =>
      match skipSpace r1 with
      | [] => none
      | sep :: r2 =>
        if sep.val = 44 then scanElements fuel depth (skipSpace r2) (acc ++ [v])
        else if sep.val = 93 then some (.array (acc ++ [v]), r2)
        else none
end

/-- Go `checkValid` and the scan of the whole input: one JSON value with white
space around it. -/
def scanDocument (data : GoString) : Option JValue :=
  match scanValue (data.length + 1) 0 (skipSpace data) with
  | none => none
  | some (v, rest) => if skipSpace rest = [] then some v else none

/-- The loop of Go `strconv.ParseUint(s, 10, 64)`; `none` is a syntax or range
error. -/
def parseUintLoop : List Byte → Nat → Option Nat
  | [], n => some n
  | c :: r, n =>
    if 48 ≤ c.val ∧ c.val ≤ 57 then
      if n ≥ 18446744073709551615 / 10 + 1 then none
      else if n * 10 + (c.val - 48) > 18446744073709551615 then none
      else parseUintLoop r (n * 10 + (c.val - 48))
    else none

/-- Go `strconv.ParseUint(s, 10, 64)`. -/
def ParseUint (s : GoString) : Option Nat :=
  if s = [] then none else parseUintLoop s 0

/-- Go `strconv.ParseInt(s, 10, 64)`. -/
def ParseInt (s : GoString) : Option Int :=
  match s with
  | [] => none
  | c :: r =>
    if c = ch '+' then
      match ParseUint r with
      | none => none
      | some un => if un ≥ 9223372036854775808 then none else some (Int.ofNat un)
    else if c = ch '-' then
      match ParseUint r with
      | none => none
      | some un => if un > 9223372036854775808 then none else some (-Int.ofNat un)
    else
      match ParseUint s with
      | none => none
      | some un => if un ≥ 9223372036854775808 then none else some (Int.ofNat un)

/-- The struct field a JSON key selects: the field whose name is the key, else
the first field whose name equals the key under `equalFold` (Go
`bytes.EqualFold`, Unicode case folding, a parameter). -/
def findField (equalFold : GoString → GoString → Bool) (names : List GoString)
    (key : GoString) : Option Nat :=
  match names.indexOf? key with
  | some i => some i
  | none => (names.findIdx? (fun n => equalFold n key))

/-- Storing one JSON value into a `bool` field (Go `literalStore`); `none` is an
`UnmarshalTypeError`. -/
def storeBool (old : Bool) : JValue → Option Bool
  | .null => some old
  | .bool b => some b
  | _ => none

/-- Storing one JSON value into an `int64` or (64-bit) `int` field. -/
def storeInt (old : Int) : JValue → Option Int
  | .null => some old
  | .number text => ParseInt text
  | _ => none

/-- Storing one JSON value into a `string` field. -/
def storeString (old : GoString) : JValue → Option GoString
  | .null => some old
  | .string s => some s
  | _ => none

/-- One member of the object stored into a `PingResult`. -/
def storePingResult (equalFold : GoString → GoString → Bool) (r : PingResult)
    (m : GoString × JValue) : Option PingResult :=
  match findField equalFold [lit "successful", lit "time", lit "packets"] m.1 with
  | some 0 => (storeBool r.Successful m.2).map (fun b => { r with Successful := b })
  | some 1 => (storeInt r.Time m.2).map (fun i => { r with Time := i })
  | some 2 => (storeInt r.Packets m.2).map (fun i => { r with Packets := i })
  | _ => some r

/-- One member of the object stored into a `SystemInfo`. -/
def storeSystemInfo (equalFold : GoString → GoString → Bool) (r : SystemInfo)
    (m : GoString × JValue) : Option SystemInfo :=
  match findField equalFold [lit "hostname", lit "ip_address"] m.1 with
  | some 0 => (storeString r.Hostname m.2).map (fun s => { r with Hostname := s })
  | some 1 => (storeString r.IPAddress m.2).map (fun s => { r with IPAddress := s })
  | _ => some r

/-- Go `json.Unmarshal(data, &response)` for a zero `PingResult`; `none` is a
non-nil error. -/
def UnmarshalPingResult (equalFold : GoString → GoString → Bool) (data : GoString) :
    Option PingResult :=
  match scanDocument data with
  | some (.object members) => members.foldlM (storePingResult equalFold) {}
  | some .null => some {}
  | _ => none

/-- Go `json.Unmarshal(data, &response)` for a zero `SystemInfo`. -/
def UnmarshalSystemInfo (equalFold : GoString → GoString → Bool) (data : GoString) :
    Option SystemInfo :=
  match scanDocument data with
  | some (.object members) => members.foldlM (storeSystemInfo equalFold) {}
  | some .null => some {}
  | _ => none

/-! ## Package `net/http`: the response writer -/

/-- Go `http.StatusBadRequest`. -/
def StatusBadRequest : Nat := 400

/-- Go `http.StatusInternalServerError`. -/
def StatusInternalServerError : Nat := 500

/-- Go `http.StatusOK`. -/
def StatusOK : Nat := 200

/-- What a handler has done to its `http.ResponseWriter`: the header map, the
status code once the header has been written, and the body bytes. -/
structure ResponseWriter where
  header : List (GoString × GoString) := []
  code : Option Nat := none
  body : GoString := []
deriving DecidableEq, Repr

/-- Go `Header.Del`. -/
def HeaderDel (h : List (GoString × GoString)) (key : GoString) : List (GoString × GoString) :=
  h.filter (fun kv => kv.1 ≠ key)

/-- Go `Header.Set`. -/
def HeaderSet (h : List (GoString × GoString)) (key value : GoString) :
    List (GoString × GoString) :=
  HeaderDel h key ++ [(key, value)]

/-- Go `ResponseWriter.WriteHeader`: the first call fixes the status. -/
def WriteHeader (w : ResponseWriter) (code : Nat) : ResponseWriter :=
  if w.code.isSome then w else { w with code := some code }

/-- Go `ResponseWriter.Write`: writes the header with status 200 when it has not
been written yet, then appends to the body. -/
def Write (w : ResponseWriter) (b : GoString) : ResponseWriter :=
  let w := WriteHeader w StatusOK
  { w with body := w.body ++ b }

/-- The status the client receives: 200 when the handler never wrote a header. -/
def ResponseWriter.status (w : ResponseWriter) : Nat := w.code.getD StatusOK

/-- Go `http.Error`. -/
def httpError (w : ResponseWriter) (error : GoString) (code : Nat) : ResponseWriter :=
  let h := HeaderDel w.header (lit "Content-Length")
  let h := HeaderSet h (lit "Content-Type") (lit "text/plain; charset=utf-8")
  let h := HeaderSet h (lit "X-Content-Type-Options") (lit "nosniff")
  let w := WriteHeader { w with header := h } code
  Write w (error ++ [10])

/-- Go `json.NewEncoder(w).Encode(v)`: the marshalled value and a newline, in one
`Write`. -/
def Encode (w : ResponseWriter) (marshalled : GoString) : ResponseWriter :=
  Write w (marshalled ++ [10])

/-- Go `url.Values`, the parsed query string. -/
abbrev Values := List (GoString × List GoString)

/-- Go `Values.Get`: the first value of the key, or the empty string. -/
def Values.Get (v : Values) (key : GoString) : GoString :=
  match v.lookup key with
  | none => []
  | some vs => vs.headD []

/-- The part of `*http.Request` the handlers read: `req.URL.Query()`. -/
structure Request where
  Query : Values

/-! ## The handlers of `main.go` -/

/-- The imported package `commands` as `main.go` uses it. -/
structure Commands where
  Ping : GoString → Outcome PingResult
  GetSystemInfo : Outcome SystemInfo

/-- The calls a handler makes, in program order: into package `commands`, what
that call did in turn, and to the logger. -/
inductive HandlerEvent where
  | Ping (host : GoString)
  | GetSystemInfo
  | inner (e : Event)
  | LogPrintf (format : GoString) (err : GoError)
deriving DecidableEq, Repr

/-- `handlePing` of `main.go` (lines 35-48). -/
def handlePing (commands : Commands) (w : ResponseWriter) (req : Request) :
    ResponseWriter × List HandlerEvent :=
  let host := req.Query.Get (lit "host")
  if host = [] then
    (httpError w (lit "Host parameter not found in query string") StatusBadRequest, [])
  else
    let r := commands.Ping host
    match r.err with
    | some err =>
      (httpError w (lit "Error Running Ping Request") StatusBadRequest,
        .Ping host :: r.trace.map .inner ++ [.LogPrintf (lit "Error pinging server %v") err])
    | none =>
      (Encode w (MarshalPingResult r.val), .Ping host :: r.trace.map .inner)

/-- `handleGetSystemInfo` of `main.go` (lines 50-58). -/
def handleGetSystemInfo (commands : Commands) (w : ResponseWriter) (_req : Request) :
    ResponseWriter × List HandlerEvent :=
  let r := commands.GetSystemInfo
  match r.err with
  | some err =>
    (httpError w (lit "Error parsing query parameters") StatusBadRequest,
      .GetSystemInfo :: r.trace.map .inner
        ++ [.LogPrintf (lit "Error parsing query parameters: %v") err])
  | none =>
    (Encode w (MarshalSystemInfo r.val), .GetSystemInfo :: r.trace.map .inner)

/-- Package `commands` as `commands.go` defines it. -/
def commandsPkg (lib : Probing) (v6 : NetV6) (os : OS) : Commands :=
  { Ping := Ping lib, GetSystemInfo := GetSystemInfo v6 os }

/-- Package `internal` as `internal/commands.go` defines it. -/
def internalPkg (lib : Probing) (v6 : NetV6) (os : OS) : Commands :=
  { Ping := internal.Ping lib, GetSystemInfo := GetSystemInfo v6 os }

/-! ## Derived notions used in the statements -/

/-- The configuration `Ping` of `commands.go` gives the pinger before `Run`. -/
def configured (p : Pinger) : Pinger := { p with Count := 4, Timeout := 10 * Second }

/-- The configuration `Ping` of `internal/commands.go` gives the pinger before
`Run`. -/
def internal.configured (p : Pinger) : Pinger :=
  { p with privileged := true, Count := 4, Timeout := 10 * Second }

/-- An interface address (`*net.IPNet`, the dynamic type of the elements
`net.InterfaceAddrs` yields) whose IP is not a loopback address and has a 4-byte
form. -/
def nonLoopbackIPv4 : Addr → Bool
  | .IPNet ip _ => !IsLoopback ip && (To4 ip).isSome
  | _ => false

/-- The range of a Go `int64` (and of `int` on a 64-bit platform). -/
def inInt64 (i : Int) : Prop := -9223372036854775808 ≤ i ∧ i ≤ 9223372036854775807

instance (i : Int) : Decidable (inInt64 i) := by
  unfold inInt64
  infer_instance

/-! ## Sample environments -/

/-- A library under which every host resolves and four replies arrive. -/
def sampleLib : Probing :=
  { NewPinger := fun host => .ok ⟨host, -1, 9223372036854775807, false⟩
    Run := fun _ => none
    Since := fun _ => 123000000
    Statistics := fun _ => ⟨4⟩ }

/-- A library under which no host resolves. -/
def unresolvedLib : Probing :=
  { NewPinger := fun _ => .error ⟨lit "no such host"⟩
    Run := fun _ => none
    Since := fun _ => 0
    Statistics := fun _ => ⟨0⟩ }

/-- A library whose `Run` fails after two replies. -/
def brokenRunLib : Probing :=
  { NewPinger := fun host => .ok ⟨host, -1, 9223372036854775807, false⟩
    Run := fun _ => some ⟨lit "socket: operation not permitted"⟩
    Since := fun _ => 5
    Statistics := fun _ => ⟨2⟩ }

/-- An IPv6 half that reads nothing. -/
def sampleV6 : NetV6 := ⟨fun _ => [], fun _ => none⟩

/-- A machine with a loopback and an Ethernet address. -/
def sampleOS : OS :=
  { Hostname := .ok (lit "test-host")
    InterfaceAddrs := .ok [.IPNet [127, 0, 0, 1] [255, 0, 0, 0],
                           .IPNet [192, 168, 1, 100] [255, 255, 255, 0]] }

/-- A machine with only a loopback address. -/
def loopbackOnlyOS : OS :=
  { Hostname := .ok (lit "test-host")
    InterfaceAddrs := .ok [.IPNet [127, 0, 0, 1] [255, 0, 0, 0]] }

/-- A machine whose hostname is the empty string. -/
def unnamedOS : OS :=
  { Hostname := .ok []
    InterfaceAddrs := .ok [.IPNet [192, 168, 1, 100] [255, 255, 255, 0]] }

/-- A machine whose hostname lookup fails. -/
def hostnameFailsOS : OS :=
  { Hostname := .error ⟨lit "hostname: permission denied"⟩
    InterfaceAddrs := .ok [.IPNet [192, 168, 1, 100] [255, 255, 255, 0]] }

/-- A byte that ends a number literal and is no part of one. -/
def endsNumber (c : Byte) : Prop :=
  ¬ (48 ≤ c.val ∧ c.val ≤ 57) ∧ c ≠ ch '.' ∧ c ≠ ch 'e' ∧ c ≠ ch 'E'

/-! ## Theorems: `Ping` -/

/-- `Ping` when the pinger cannot be constructed. -/
theorem Ping_unresolved (lib : Probing) (host : GoString) (e : GoError)
    (h : lib.NewPinger host = .error e) :
    Ping lib host = ⟨{}, some e, [.NewPinger host]⟩ := by
  unfold Ping
  rw [h]

/-- `Ping` when `Run` reports an error. -/
theorem Ping_run_failed (lib : Probing) (host : GoString) (p : Pinger) (e : GoError)
    (h : lib.NewPinger host = .ok p) (hr : lib.Run (configured p) = some e) :
    Ping lib host
      = ⟨{ Successful := false, Time := lib.Since (configured p),
           Packets := (lib.Statistics (configured p)).PacketsRecv }, some e,
         [.NewPinger host, .Run (configured p), .Statistics (configured p),
          .LogPrintf (lit "Ping failed: %v") e]⟩ := by
  unfold Ping
  rw [h]
  show (match lib.Run (configured p) with
    | some e => _
    | none => _) = _
  rw [hr]
  rfl

/-- `Ping` when `Run` reports no error. -/
theorem Ping_run_ok (lib : Probing) (host : GoString) (p : Pinger)
    (h : lib.NewPinger host = .ok p) (hr : lib.Run (configured p) = none) :
    Ping lib host
      = ⟨{ Successful := decide ((lib.Statistics (configured p)).PacketsRecv > 0),
           Time := lib.Since (configured p),
           Packets := (lib.Statistics (configured p)).PacketsRecv }, none,
         [.NewPinger host, .Run (configured p), .Statistics (configured p)]⟩ := by
  unfold Ping
  rw [h]
  show (match lib.Run (configured p) with
    | some e => _
    | none => _) = _
  rw [hr]
  rfl

/-- `internal.Ping` when the pinger cannot be constructed. -/
theorem internal_Ping_unresolved (lib : Probing) (host : GoString) (e : GoError)
    (h : lib.NewPinger host = .error e) :
    internal.Ping lib host = ⟨{}, some e, [.NewPinger host]⟩ := by
  unfold internal.Ping
  rw [h]

/-- `internal.Ping` when `Run` reports an error. -/
theorem internal_Ping_run_failed (lib : Probing) (host : GoString) (p : Pinger) (e : GoError)
    (h : lib.NewPinger host = .ok p) (hr : lib.Run (internal.configured p) = some e) :
    internal.Ping lib host
      = ⟨{ Successful := false, Time := lib.Since (internal.configured p),
           Packets := (lib.Statistics (internal.configured p)).PacketsRecv }, some e,
         [.NewPinger host, .SetPrivileged true, .Run (internal.configured p),
          .Statistics (internal.configured p),
          .LogPrintf (lit "Ping failed: %v") e]⟩ := by
  unfold internal.Ping
  rw [h]
  show (match lib.Run (internal.configured p) with
    | some e => _
    | none => _) = _
  rw [hr]
  rfl

/-- `internal.Ping` when `Run` reports no error. -/
theorem internal_Ping_run_ok (lib : Probing) (host : GoString) (p : Pinger)
    (h : lib.NewPinger host = .ok p) (hr : lib.Run (internal.configured p) = none) :
    internal.Ping lib host
      = ⟨{ Successful := decide ((lib.Statistics (internal.configured p)).PacketsRecv > 0),
           Time := lib.Since (internal.configured p),
           Packets := (lib.Statistics (internal.configured p)).PacketsRecv }, none,
         [.NewPinger host, .SetPrivileged true, .Run (internal.configured p),
          .Statistics (internal.configured p)]⟩ := by
  unfold internal.Ping
  rw [h]
  show (match lib.Run (internal.configured p) with
    | some e => _
    | none => _) = _
  rw [hr]
  rfl

/-- C1 (the code departs from the claim): `Ping` performs no validation.  For
every library and every host, also one with a shell metacharacter, the first
thing both copies of `Ping` do is call `NewPinger host`; under a library that
resolves every name, `Ping` of the host `a;b` constructs and runs the pinger and
returns a successful result with no error, although `isValidHost`, which `Ping`
never calls, rejects that host. -/
theorem C1_Ping_constructs_pinger_first (lib : Probing) (host : GoString) :
    (Ping lib host).trace.head? = some (Event.NewPinger host)
    ∧ (internal.Ping lib host).trace.head? = some (Event.NewPinger host)
    ∧ ContainsAny (lit "a;b") (lit " \t\n\r;|&`<>") = true
    ∧ isValidHost sampleV6 (lit "a;b") = false
    ∧ (Ping sampleLib (lit "a;b")).err = none
    ∧ (Ping sampleLib (lit "a;b")).val = ⟨true, 123000000, 4⟩
    ∧ (Ping sampleLib (lit "a;b")).trace
        = [Event.NewPinger (lit "a;b"),
           Event.Run ⟨lit "a;b", 4, 10000000000, false⟩,
           Event.Statistics ⟨lit "a;b", 4, 10000000000, false⟩] := by
  refine ⟨?_, ?_, by decide, by decide, by decide, by decide, by decide⟩
  · unfold Ping
    cases lib.NewPinger host with
    | error e => rfl
    | ok p =>
      simp only
      cases lib.Run _ <;> rfl
  · unfold internal.Ping
    cases lib.NewPinger host with
    | error e => rfl
    | ok p =>
      simp only
      cases lib.Run _ <;> rfl

/-- C6: when the pinger is constructed and `Run` returns no error, `Ping` (both
copies) returns no error, `Packets` is the received-packet count of the library
and `Successful` is whether that count is positive; and whenever a returned
result has `Successful = true`, it was returned with no error and `Packets > 0`. -/
theorem C6_Ping_success (lib : Probing) (host : GoString) :
    (∀ p, lib.NewPinger host = .ok p → lib.Run (configured p) = none →
      (Ping lib host).err = none
      ∧ (Ping lib host).val.Packets = (lib.Statistics (configured p)).PacketsRecv
      ∧ (Ping lib host).val.Successful
          = decide ((lib.Statistics (configured p)).PacketsRecv > 0))
    ∧ (∀ p, lib.NewPinger host = .ok p → lib.Run (internal.configured p) = none →
      (internal.Ping lib host).err = none
      ∧ (internal.Ping lib host).val.Packets
          = (lib.Statistics (internal.configured p)).PacketsRecv
      ∧ (internal.Ping lib host).val.Successful
          = decide ((lib.Statistics (internal.configured p)).PacketsRecv > 0))
    ∧ ((Ping lib host).val.Successful = true →
        (Ping lib host).err = none ∧ (Ping lib host).val.Packets > 0)
    ∧ ((internal.Ping lib host).val.Successful = true →
        (internal.Ping lib host).err = none ∧ (internal.Ping lib host).val.Packets > 0) := by
  refine ⟨?_, ?_, ?_, ?_⟩
  · intro p hp hr
    rw [Ping_run_ok lib host p hp hr]
    exact ⟨rfl, rfl, rfl⟩
  · intro p hp hr
    rw [internal_Ping_run_ok lib host p hp hr]
    exact ⟨rfl, rfl, rfl⟩
  · cases hp : lib.NewPinger host with
    | error e =>
      rw [Ping_unresolved lib host e hp]
      intro h; exact absurd h Bool.false_ne_true
    | ok p =>
      cases hr : lib.Run (configured p) with
      | some e =>
        rw [Ping_run_failed lib host p e hp hr]
        intro h; exact absurd h Bool.false_ne_true
      | none =>
        rw [Ping_run_ok lib host p hp hr]
        intro h; exact ⟨rfl, of_decide_eq_true h⟩
  · cases hp : lib.NewPinger host with
    | error e =>
      rw [internal_Ping_unresolved lib host e hp]
      intro h; exact absurd h Bool.false_ne_true
    | ok p =>
      cases hr : lib.Run (internal.configured p) with
      | some e =>
        rw [internal_Ping_run_failed lib host p e hp hr]
        intro h; exact absurd h Bool.false_ne_true
      | none =>
        rw [internal_Ping_run_ok lib host p hp hr]
        intro h; exact ⟨rfl, of_decide_eq_true h⟩

/-- The success case of C6 under the sample library. -/
theorem C6_Ping_success_witness :
    ((Ping sampleLib (lit "google.com")).err = none
      ∧ (Ping sampleLib (lit "google.com")).val.Packets = 4
      ∧ (Ping sampleLib (lit "google.com")).val.Successful = true)
    ∧ ((Ping sampleLib (lit "google.com")).err = none
      ∧ (Ping sampleLib (lit "google.com")).val.Packets > 0) :=
  ⟨(C6_Ping_success sampleLib (lit "google.com")).1
      ⟨lit "google.com", -1, 9223372036854775807, false⟩ rfl rfl,
   (C6_Ping_success sampleLib (lit "google.com")).2.2.1 (by decide)⟩

/-- C7: the error the library reports is the error `Ping` (either copy) returns.
When `NewPinger` fails with `e`, `Ping` returns `e` with `Successful = false` and
`Packets = 0`, having made no other call; when the pinger is constructed and
`Run` fails with `e`, `Ping` returns `e` with `Successful = false`, `Packets` the
received-packet count the library holds and `Time` the elapsed time.  Conversely,
whenever `Ping` returns an error `e`, the result has `Successful = false` and `e`
arose in one of these two ways, with `Packets` as stated. -/
theorem C7_Ping_error (lib : Probing) (host : GoString) (e : GoError) :
    (lib.NewPinger host = .error e →
      (Ping lib host).err = some e
      ∧ (Ping lib host).val.Successful = false
      ∧ (Ping lib host).val.Packets = 0
      ∧ (Ping lib host).trace = [.NewPinger host])
    ∧ (∀ p, lib.NewPinger host = .ok p → lib.Run (configured p) = some e →
      (Ping lib host).err = some e
      ∧ (Ping lib host).val.Successful = false
      ∧ (Ping lib host).val.Packets = (lib.Statistics (configured p)).PacketsRecv
      ∧ (Ping lib host).val.Time = lib.Since (configured p))
    ∧ (lib.NewPinger host = .error e →
      (internal.Ping lib host).err = some e
      ∧ (internal.Ping lib host).val.Successful = false
      ∧ (internal.Ping lib host).val.Packets = 0
      ∧ (internal.Ping lib host).trace = [.NewPinger host])
    ∧ (∀ p, lib.NewPinger host = .ok p → lib.Run (internal.configured p) = some e →
      (internal.Ping lib host).err = some e
      ∧ (internal.Ping lib host).val.Successful = false
      ∧ (internal.Ping lib host).val.Packets
          = (lib.Statistics (internal.configured p)).PacketsRecv
      ∧ (internal.Ping lib host).val.Time = lib.Since (internal.configured p))
    ∧ ((Ping lib host).err = some e →
      (Ping lib host).val.Successful = false
      ∧ ((lib.NewPinger host = .error e ∧ (Ping lib host).val.Packets = 0
            ∧ (Ping lib host).trace = [.NewPinger host])
         ∨ ∃ p, lib.NewPinger host = .ok p ∧ lib.Run (configured p) = some e
            ∧ (Ping lib host).val.Packets = (lib.Statistics (configured p)).PacketsRecv))
    ∧ ((internal.Ping lib host).err = some e →
      (internal.Ping lib host).val.Successful = false
      ∧ ((lib.NewPinger host = .error e ∧ (internal.Ping lib host).val.Packets = 0
            ∧ (internal.Ping lib host).trace = [.NewPinger host])
         ∨ ∃ p, lib.NewPinger host = .ok p ∧ lib.Run (internal.configured p) = some e
            ∧ (internal.Ping lib host).val.Packets
                = (lib.Statistics (internal.configured p)).PacketsRecv)) := by
  refine ⟨?_, ?_, ?_, ?_, ?_, ?_⟩
  · intro h
    rw [Ping_unresolved lib host e h]
    exact ⟨rfl, rfl, rfl, rfl⟩
  · intro p hp hr
    rw [Ping_run_failed lib host p e hp hr]
    exact ⟨rfl, rfl, rfl, rfl⟩
  · intro h
    rw [internal_Ping_unresolved lib host e h]
    exact ⟨rfl, rfl, rfl, rfl⟩
  · intro p hp hr
    rw [internal_Ping_run_failed lib host p e hp hr]
    exact ⟨rfl, rfl, rfl, rfl⟩
  · cases hp : lib.NewPinger host with
    | error e1 =>
      rw [Ping_unresolved lib host e1 hp]
      intro h
      have he : e1 = e := Option.some.inj h
      subst he
      exact ⟨rfl, Or.inl ⟨rfl, rfl, rfl⟩⟩
    | ok p =>
      cases hr : lib.Run (configured p) with
      | some e1 =>
        rw [Ping_run_failed lib host p e1 hp hr]
        intro h
        have he : e1 = e := Option.some.inj h
        subst he
        exact ⟨rfl, Or.inr ⟨p, rfl, hr, rfl⟩⟩
      | none =>
        rw [Ping_run_ok lib host p hp hr]
        intro h; exact absurd h (by simp)
  · cases hp : lib.NewPinger host with
    | error e1 =>
      rw [internal_Ping_unresolved lib host e1 hp]
      intro h
      have he : e1 = e := Option.some.inj h
      subst he
      exact ⟨rfl, Or.inl ⟨rfl, rfl, rfl⟩⟩
    | ok p =>
      cases hr : lib.Run (internal.configured p) with
      | some e1 =>
        rw [internal_Ping_run_failed lib host p e1 hp hr]
        intro h
        have he : e1 = e := Option.some.inj h
        subst he
        exact ⟨rfl, Or.inr ⟨p, rfl, hr, rfl⟩⟩
      | none =>
        rw [internal_Ping_run_ok lib host p hp hr]
        intro h; exact absurd h (by simp)

/-- The error cases of C7 for both copies of `Ping`: a host that does not resolve
(the library's error comes back, no packets), and a failing `Run` (the library's
error comes back with the two packets received so far). -/
theorem C7_Ping_error_witness :
    ((Ping unresolvedLib (lit "invalid_host")).err = some ⟨lit "no such host"⟩
      ∧ (Ping unresolvedLib (lit "invalid_host")).val.Successful = false
      ∧ (Ping unresolvedLib (lit "invalid_host")).val.Packets = 0
      ∧ (Ping unresolvedLib (lit "invalid_host")).trace = [.NewPinger (lit "invalid_host")])
    ∧ ((internal.Ping unresolvedLib (lit "invalid_host")).err = some ⟨lit "no such host"⟩
      ∧ (internal.Ping unresolvedLib (lit "invalid_host")).val.Successful = false
      ∧ (internal.Ping unresolvedLib (lit "invalid_host")).val.Packets = 0
      ∧ (internal.Ping unresolvedLib (lit "invalid_host")).trace
          = [.NewPinger (lit "invalid_host")])
    ∧ ((Ping brokenRunLib (lit "10.0.0.1")).err = some ⟨lit "socket: operation not permitted"⟩
      ∧ (Ping brokenRunLib (lit "10.0.0.1")).val.Successful = false
      ∧ (Ping brokenRunLib (lit "10.0.0.1")).val.Packets = 2
      ∧ (Ping brokenRunLib (lit "10.0.0.1")).val.Time = 5)
    ∧ ((internal.Ping brokenRunLib (lit "10.0.0.1")).err
          = some ⟨lit "socket: operation not permitted"⟩
      ∧ (internal.Ping brokenRunLib (lit "10.0.0.1")).val.Successful = false
      ∧ (internal.Ping brokenRunLib (lit "10.0.0.1")).val.Packets = 2
      ∧ (internal.Ping brokenRunLib (lit "10.0.0.1")).val.Time = 5)
    ∧ ((Ping unresolvedLib (lit "invalid_host")).val.Successful = false
      ∧ ((unresolvedLib.NewPinger (lit "invalid_host") = .error ⟨lit "no such host"⟩
            ∧ (Ping unresolvedLib (lit "invalid_host")).val.Packets = 0
            ∧ (Ping unresolvedLib (lit "invalid_host")).trace
                = [.NewPinger (lit "invalid_host")])
         ∨ ∃ p, unresolvedLib.NewPinger (lit "invalid_host") = .ok p
            ∧ unresolvedLib.Run (configured p) = some ⟨lit "no such host"⟩
            ∧ (Ping unresolvedLib (lit "invalid_host")).val.Packets
                = (unresolvedLib.Statistics (configured p)).PacketsRecv))
    ∧ ((internal.Ping brokenRunLib (lit "10.0.0.1")).val.Successful = false
      ∧ ((brokenRunLib.NewPinger (lit "10.0.0.1")
              = .error ⟨lit "socket: operation not permitted"⟩
            ∧ (internal.Ping brokenRunLib (lit "10.0.0.1")).val.Packets = 0
            ∧ (internal.Ping brokenRunLib (lit "10.0.0.1")).trace
                = [.NewPinger (lit "10.0.0.1")])
         ∨ ∃ p, brokenRunLib.NewPinger (lit "10.0.0.1") = .ok p
            ∧ brokenRunLib.Run (internal.configured p)
                = some ⟨lit "socket: operation not permitted"⟩
            ∧ (internal.Ping brokenRunLib (lit "10.0.0.1")).val.Packets
                = (brokenRunLib.Statistics (internal.configured p)).PacketsRecv)) :=
  ⟨(C7_Ping_error unresolvedLib (lit "invalid_host") ⟨lit "no such host"⟩).1 rfl,
   (C7_Ping_error unresolvedLib (lit "invalid_host") ⟨lit "no such host"⟩).2.2.1 rfl,
   (C7_Ping_error brokenRunLib (lit "10.0.0.1") ⟨lit "socket: operation not permitted"⟩).2.1
     ⟨lit "10.0.0.1", -1, 9223372036854775807, false⟩ rfl rfl,
   (C7_Ping_error brokenRunLib (lit "10.0.0.1")
     ⟨lit "socket: operation not permitted"⟩).2.2.2.1
     ⟨lit "10.0.0.1", -1, 9223372036854775807, false⟩ rfl rfl,
   (C7_Ping_error unresolvedLib (lit "invalid_host") ⟨lit "no such host"⟩).2.2.2.2.1
     (by decide),
   (C7_Ping_error brokenRunLib (lit "10.0.0.1")
     ⟨lit "socket: operation not permitted"⟩).2.2.2.2.2 (by decide)⟩

/-! ## Theorems: the handlers -/

/-- `http.Error` on a fresh response writer. -/
theorem httpError_fresh (msg : GoString) (code : Nat) :
    (httpError {} msg code).status = code ∧ (httpError {} msg code).body = msg ++ [10] := by
  constructor <;> rfl

/-- `Encode` on a fresh response writer. -/
theorem Encode_fresh (m : GoString) :
    (Encode {} m).status = 200 ∧ (Encode {} m).body = m ++ [10] := by
  constructor <;> rfl

/-- `handlePing` without a host. -/
theorem handlePing_missing (commands : Commands) (w : ResponseWriter) (req : Request)
    (h : req.Query.Get (lit "host") = []) :
    handlePing commands w req
      = (httpError w (lit "Host parameter not found in query string") StatusBadRequest, []) := by
  unfold handlePing
  rw [if_pos h]

/-- `handlePing` when the probe fails. -/
theorem handlePing_failed (commands : Commands) (w : ResponseWriter) (req : Request)
    (e : GoError) (h : req.Query.Get (lit "host") ≠ [])
    (he : (commands.Ping (req.Query.Get (lit "host"))).err = some e) :
    handlePing commands w req
      = (httpError w (lit "Error Running Ping Request") StatusBadRequest,
          .Ping (req.Query.Get (lit "host"))
            :: (commands.Ping (req.Query.Get (lit "host"))).trace.map .inner
            ++ [.LogPrintf (lit "Error pinging server %v") e]) := by
  unfold handlePing
  rw [if_neg h]
  simp only [he]

/-- `handlePing` when the probe succeeds. -/
theorem handlePing_ok (commands : Commands) (w : ResponseWriter) (req : Request)
    (h : req.Query.Get (lit "host") ≠ [])
    (he : (commands.Ping (req.Query.Get (lit "host"))).err = none) :
    handlePing commands w req
      = (Encode w (MarshalPingResult (commands.Ping (req.Query.Get (lit "host"))).val),
          .Ping (req.Query.Get (lit "host"))
            :: (commands.Ping (req.Query.Get (lit "host"))).trace.map .inner) := by
  unfold handlePing
  rw [if_neg h]
  simp only [he]

/-- C2: when the `host` query parameter is missing (no entry, or an entry without
values) or its first value is empty, `handlePing` responds with status 400 and
the body `Host parameter not found in query string` plus a newline, and makes no
call at all: `Ping` is not called. -/
theorem C2_handlePing_missing_host (commands : Commands) (req : Request)
    (h : req.Query.lookup (lit "host") = none ∨ req.Query.lookup (lit "host") = some []
      ∨ ∃ rest, req.Query.lookup (lit "host") = some ([] :: rest)) :
    (handlePing commands {} req).1.status = 400
    ∧ (handlePing commands {} req).1.body = lit "Host parameter not found in query string\n"
    ∧ (handlePing commands {} req).2 = [] := by
  have hg : req.Query.Get (lit "host") = [] := by
    unfold Values.Get
    rcases h with h | h | ⟨rest, h⟩ <;> rw [h] <;> rfl
  rw [handlePing_missing commands {} req hg]
  refine ⟨rfl, ?_, rfl⟩
  show (httpError {} _ _).body = _
  rw [(httpError_fresh _ _).2]
  decide

/-- The request `GET /ping` as an instance of C2. -/
theorem C2_handlePing_missing_host_witness :
    (handlePing (commandsPkg sampleLib sampleV6 sampleOS) {} ⟨[]⟩).1.status = 400
    ∧ (handlePing (commandsPkg sampleLib sampleV6 sampleOS) {} ⟨[]⟩).1.body
        = lit "Host parameter not found in query string\n"
    ∧ (handlePing (commandsPkg sampleLib sampleV6 sampleOS) {} ⟨[]⟩).2 = [] :=
  C2_handlePing_missing_host (commandsPkg sampleLib sampleV6 sampleOS) ⟨[]⟩ (Or.inl rfl)

/-- C3: `handlePing` responds 400 exactly when the host is missing or `Ping`
returns an error; when `Ping` returns an error the body is
`Error Running Ping Request` plus a newline and `Ping` was called with the host
of the query; otherwise the status is 200, the body is the JSON encoding of the
result `Ping` returned (plus a newline), and the calls made are `Ping` with
exactly the host of the query followed by what `Ping` did. -/
theorem C3_handlePing_responses (commands : Commands) (req : Request) :
    ((handlePing commands {} req).1.status = 400 ↔
      (req.Query.Get (lit "host") = []
        ∨ (commands.Ping (req.Query.Get (lit "host"))).err ≠ none))
    ∧ (req.Query.Get (lit "host") ≠ [] →
        (commands.Ping (req.Query.Get (lit "host"))).err ≠ none →
        (handlePing commands {} req).1.body = lit "Error Running Ping Request\n"
        ∧ (handlePing commands {} req).2.head? = some (.Ping (req.Query.Get (lit "host"))))
    ∧ (req.Query.Get (lit "host") ≠ [] →
        (commands.Ping (req.Query.Get (lit "host"))).err = none →
        (handlePing commands {} req).1.status = 200
        ∧ (handlePing commands {} req).1.body
            = MarshalPingResult (commands.Ping (req.Query.Get (lit "host"))).val ++ [10]
        ∧ (handlePing commands {} req).2
            = .Ping (req.Query.Get (lit "host"))
                :: (commands.Ping (req.Query.Get (lit "host"))).trace.map .inner) := by
  by_cases hh : req.Query.Get (lit "host") = []
  · rw [handlePing_missing commands {} req hh]
    exact ⟨⟨fun _ => Or.inl hh, fun _ => rfl⟩, fun h => absurd hh h, fun h => absurd hh h⟩
  · cases he : (commands.Ping (req.Query.Get (lit "host"))).err with
    | none =>
      rw [handlePing_ok commands {} req hh he]
      refine ⟨⟨fun h => ?_, fun h => ?_⟩, fun _ h => absurd rfl h,
        fun _ _ => ⟨rfl, rfl, rfl⟩⟩
      · exact absurd ((Encode_fresh _).1.symm.trans h) (by decide)
      · rcases h with h | h
        · exact absurd h hh
        · exact absurd rfl h
    | some e =>
      rw [handlePing_failed commands {} req e hh he]
      refine ⟨⟨fun _ => Or.inr (by simp), fun _ => rfl⟩, fun _ _ => ⟨?_, rfl⟩,
        fun _ h => by simp at h⟩
      show (httpError {} _ _).body = _
      rw [(httpError_fresh _ _).2]
      decide

/-- The request `GET /ping?host=google.com` under the sample library as an
instance of C3. -/
theorem C3_handlePing_responses_witness :
    (handlePing (commandsPkg sampleLib sampleV6 sampleOS) {}
        ⟨[(lit "host", [lit "google.com"])]⟩).1.status = 200
    ∧ (handlePing (commandsPkg sampleLib sampleV6 sampleOS) {}
        ⟨[(lit "host", [lit "google.com"])]⟩).1.body
        = lit "\x7b\"successful\":true,\"time\":123000000,\"packets\":4\x7d\n"
    ∧ (handlePing (commandsPkg sampleLib sampleV6 sampleOS) {}
        ⟨[(lit "host", [lit "google.com"])]⟩).2
        = [.Ping (lit "google.com"), .inner (.NewPinger (lit "google.com")),
           .inner (.Run ⟨lit "google.com", 4, 10000000000, false⟩),
           .inner (.Statistics ⟨lit "google.com", 4, 10000000000, false⟩)] := by
  have h := (C3_handlePing_responses (commandsPkg sampleLib sampleV6 sampleOS)
    ⟨[(lit "host", [lit "google.com"])]⟩).2.2 (by decide) (by decide)
  refine ⟨h.1, ?_, ?_⟩
  · rw [h.2.1]; decide
  · rw [h.2.2]; decide

/-- C4 (the code departs from the claim): on a machine with only a loopback
address `GetSystemInfo` fails, and `handleGetSystemInfo` answers with status 400
and the body `Error parsing query parameters` plus a newline, not with status 500
and `Error retrieving system info`; on the sample machine it answers 200 with the
JSON object of the hostname and the address. -/
theorem C4_handleGetSystemInfo_failure_status :
    (GetSystemInfo sampleV6 loopbackOnlyOS).err = some (errorsNew (lit "no IP address found"))
    ∧ (handleGetSystemInfo (commandsPkg sampleLib sampleV6 loopbackOnlyOS) {} ⟨[]⟩).1.status
        = 400
    ∧ (handleGetSystemInfo (commandsPkg sampleLib sampleV6 loopbackOnlyOS) {} ⟨[]⟩).1.body
        = lit "Error parsing query parameters\n"
    ∧ (handleGetSystemInfo (commandsPkg sampleLib sampleV6 loopbackOnlyOS) {} ⟨[]⟩).1.status
        ≠ StatusInternalServerError
    ∧ (handleGetSystemInfo (commandsPkg sampleLib sampleV6 loopbackOnlyOS) {} ⟨[]⟩).1.body
        ≠ lit "Error retrieving system info\n"
    ∧ (handleGetSystemInfo (commandsPkg sampleLib sampleV6 sampleOS) {} ⟨[]⟩).1.status = 200
    ∧ (handleGetSystemInfo (commandsPkg sampleLib sampleV6 sampleOS) {} ⟨[]⟩).1.body
        = lit "\x7b\"hostname\":\"test-host\",\"ip_address\":\"192.168.1.100\"\x7d\n" := by
  refine ⟨by decide, by decide, by decide, by decide, by decide, by decide, by decide⟩

/-! ## Theorems: addresses -/

/-- The byte value of a digit. -/
theorem digit_val (n : Nat) : (digit n).val = 48 + n % 10 := by
  have h : n % 10 < 10 := Nat.mod_lt _ (by decide)
  simp only [digit, Fin.ofNat, Nat.mod_mod]
  omega

/-- `appendDecimal` appends to its buffer. -/
theorem appendDecimal_eq (b : GoString) (x : Byte) :
    appendDecimal b x = b ++ appendDecimal [] x := by
  unfold appendDecimal
  by_cases h1 : x.val ≥ 100 <;> by_cases h2 : x.val ≥ 10 <;> simp [h1, h2]

/-- A non-nil `To4` has four bytes. -/
theorem To4_length (ip p4 : IP) (h : To4 ip = some p4) : p4.length = 4 := by
  unfold To4 at h
  split at h
  · cases h; assumption
  · split at h
    · rename_i h16
      cases h
      simp [List.length_drop, h16.1]
    · cases h

/-- `To4` is non-nil only for 4-byte and 16-byte addresses. -/
theorem To4_some_length (ip p4 : IP) (h : To4 ip = some p4) :
    ip.length = 4 ∨ ip.length = 16 := by
  unfold To4 at h
  split at h
  · left; assumption
  · split at h
    · rename_i h16; right; exact h16.1
    · cases h

/-- `IP.String` of an address with a 4-byte form is dotted decimal. -/
theorem IPString_of_To4 (v6 : NetV6) (ip p4 : IP) (h : To4 ip = some p4) :
    IPString v6 ip = appendTo4 [] p4 := by
  have hl := To4_length ip p4 h
  have hl2 := To4_some_length ip p4 h
  unfold IPString
  rw [if_neg (by omega), if_neg (by omega), h]
  simp [hl]

/-- The decimal form of a byte is not empty. -/
theorem appendDecimal_ne_nil (x : Byte) : appendDecimal [] x ≠ [] := by
  unfold appendDecimal
  simp

/-- Dotted decimal is not empty. -/
theorem appendTo4_ne_nil (p4 : IP) : appendTo4 [] p4 ≠ [] := by
  unfold appendTo4
  simp only
  rw [appendDecimal_eq]
  intro h
  have := List.append_eq_nil.mp h
  exact appendDecimal_ne_nil _ this.2

/-- The address loop returns the text of the first address that passes the tests. -/
theorem scanAddrs_find (v6 : NetV6) (addrs : List Addr) :
    scanAddrs v6 addrs
      = match addrs.find? nonLoopbackIPv4 with
        | some (.IPNet ip _) => IPString v6 ip
        | _ => [] := by
  induction addrs with
  | nil => rfl
  | cons a rest ih =>
    cases a with
    | IPNet ip mask =>
      unfold scanAddrs
      by_cases hl : IsLoopback ip = true
      · simp [hl, nonLoopbackIPv4, ih]
      · by_cases h4 : (To4 ip).isSome = true
        · simp [hl, h4, nonLoopbackIPv4]
        · simp [hl, h4, nonLoopbackIPv4, ih]
    | IPAddr ip zone =>
      unfold scanAddrs
      simp [nonLoopbackIPv4, ih]

/-- The loop leaves `ipAddress` empty exactly when no address passes the tests. -/
theorem scanAddrs_eq_nil_iff (v6 : NetV6) (addrs : List Addr) :
    scanAddrs v6 addrs = [] ↔ addrs.find? nonLoopbackIPv4 = none := by
  rw [scanAddrs_find]
  cases hf : addrs.find? nonLoopbackIPv4 with
  | none => simp
  | some a =>
    have hp := List.find?_some hf
    cases a with
    | IPNet ip mask =>
      simp only [nonLoopbackIPv4, Bool.and_eq_true] at hp
      obtain ⟨p4, h4⟩ := Option.isSome_iff_exists.mp hp.2
      simp [IPString_of_To4 v6 ip p4 h4, appendTo4_ne_nil]
    | IPAddr ip zone => simp [nonLoopbackIPv4] at hp

/-- C8: when the hostname lookup and the enumeration succeed, `GetSystemInfo`
returns the OS-reported hostname together with the string form of the first
address in enumeration order that is a non-loopback IPv4 interface address, and
it fails, with the error `no IP address found`, exactly when the list holds no
such address. -/
theorem C8_GetSystemInfo_first_address (v6 : NetV6) (os : OS) (hostname : GoString)
    (addrs : List Addr) (hh : os.Hostname = .ok hostname)
    (ha : os.InterfaceAddrs = .ok addrs) :
    (∀ ip mask, addrs.find? nonLoopbackIPv4 = some (.IPNet ip mask) →
        (GetSystemInfo v6 os).err = none
        ∧ (GetSystemInfo v6 os).val = { Hostname := hostname, IPAddress := IPString v6 ip })
    ∧ ((GetSystemInfo v6 os).err = some (errorsNew (lit "no IP address found"))
        ↔ ∀ a ∈ addrs, nonLoopbackIPv4 a = false)
    ∧ ((GetSystemInfo v6 os).err ≠ none ↔ ∀ a ∈ addrs, nonLoopbackIPv4 a = false) := by
  have hnone : addrs.find? nonLoopbackIPv4 = none
      ↔ ∀ a ∈ addrs, nonLoopbackIPv4 a = false := by
    simp [List.find?_eq_none]
  unfold GetSystemInfo
  rw [hh, ha]
  simp only
  by_cases hs : scanAddrs v6 addrs = []
  · have hf := (scanAddrs_eq_nil_iff v6 addrs).mp hs
    rw [if_pos hs]
    refine ⟨?_, ?_, ?_⟩
    · intro ip mask h; rw [hf] at h; cases h
    · exact ⟨fun _ => hnone.mp hf, fun _ => rfl⟩
    · exact ⟨fun _ => hnone.mp hf, fun _ => by simp⟩
  · have hf : ¬ addrs.find? nonLoopbackIPv4 = none := fun h =>
      hs ((scanAddrs_eq_nil_iff v6 addrs).mpr h)
    rw [if_neg hs]
    refine ⟨?_, ?_, ?_⟩
    · intro ip mask h
      refine ⟨rfl, ?_⟩
      rw [scanAddrs_find, h]
    · exact ⟨fun h => by simp at h, fun h => absurd (hnone.mpr h) hf⟩
    · exact ⟨fun h => absurd rfl h, fun h => absurd (hnone.mpr h) hf⟩

/-- The sample machine as an instance of C8: the loopback address is passed over. -/
theorem C8_GetSystemInfo_first_address_witness :
    (GetSystemInfo sampleV6 sampleOS).err = none
    ∧ (GetSystemInfo sampleV6 sampleOS).val
        = { Hostname := lit "test-host", IPAddress := IPString sampleV6 [192, 168, 1, 100] } :=
  (C8_GetSystemInfo_first_address sampleV6 sampleOS (lit "test-host")
    [.IPNet [127, 0, 0, 1] [255, 0, 0, 0], .IPNet [192, 168, 1, 100] [255, 255, 255, 0]]
    rfl rfl).1 [192, 168, 1, 100] [255, 255, 255, 0] (by decide)

/-- The byte of the dot. -/
theorem ch_dot : (ch '.').val = 46 := by decide

/-- One digit step of the IPv4 reader. -/
theorem parseIPv4Loop_digit (prev : Option Byte) (c : Byte) (rest : List Byte) (st : V4State)
    (h1 : 48 ≤ c.val) (h2 : c.val ≤ 57) (h3 : ¬ (st.digLen = 1 ∧ st.val = 0))
    (h4 : st.val * 10 + c.val - 48 ≤ 255) :
    parseIPv4Loop prev (c :: rest) st
      = parseIPv4Loop (some c) rest
          { st with val := st.val * 10 + c.val - 48, digLen := st.digLen + 1 } := by
  rw [parseIPv4Loop]
  rw [if_pos ⟨h1, h2⟩, if_neg h3]
  simp only
  rw [if_neg (by omega)]

/-- One dot step of the IPv4 reader. -/
theorem parseIPv4Loop_dot (prev : Byte) (r : Byte) (rest : List Byte) (st : V4State)
    (h1 : prev ≠ ch '.') (h2 : st.pos ≠ 3) :
    parseIPv4Loop (some prev) (ch '.' :: r :: rest) st
      = parseIPv4Loop (some (ch '.')) (r :: rest)
          { fields := st.fields.set st.pos (Fin.ofNat st.val), val := 0, pos := st.pos + 1,
            digLen := 0 } := by
  rw [parseIPv4Loop]
  rw [if_neg (by rw [ch_dot]; omega), if_pos rfl, if_neg (by simp [h1]), if_neg h2]

/-- Reading the decimal form of one byte. -/
theorem parseIPv4Loop_octet (prev : Option Byte) (x : Byte) (rest : List Byte)
    (fields : List Byte) (pos : Nat) :
    parseIPv4Loop prev (appendDecimal [] x ++ rest)
        { fields := fields, val := 0, pos := pos, digLen := 0 }
      = parseIPv4Loop (some (digit (x.val % 10))) rest
          { fields := fields, val := x.val, pos := pos,
            digLen := (appendDecimal [] x).length } := by
  have hx := x.isLt
  unfold appendDecimal
  by_cases h100 : x.val ≥ 100
  · have h10 : x.val ≥ 10 := by omega
    simp only [h100, h10, if_true, List.nil_append, List.cons_append, List.length_cons,
      List.length_nil]
    rw [parseIPv4Loop_digit _ _ _ _ (by rw [digit_val]; omega) (by rw [digit_val]; omega)
      (by simp) (by rw [digit_val]; simp only; omega)]
    rw [parseIPv4Loop_digit _ _ _ _ (by rw [digit_val]; omega) (by rw [digit_val]; omega)
      (by simp only [digit_val]; omega) (by simp only [digit_val]; omega)]
    rw [parseIPv4Loop_digit _ _ _ _ (by rw [digit_val]; omega) (by rw [digit_val]; omega)
      (by simp only [digit_val]; omega) (by simp only [digit_val]; omega)]
    congr 1
    simp only [digit_val, V4State.mk.injEq, true_and, and_true]
    omega
  · by_cases h10 : x.val ≥ 10
    · simp only [h100, h10, if_true, if_false, List.nil_append, List.cons_append,
        List.length_cons, List.length_nil]
      rw [parseIPv4Loop_digit _ _ _ _ (by rw [digit_val]; omega) (by rw [digit_val]; omega)
        (by simp) (by rw [digit_val]; simp only; omega)]
      rw [parseIPv4Loop_digit _ _ _ _ (by rw [digit_val]; omega) (by rw [digit_val]; omega)
        (by simp only [digit_val]; omega) (by simp only [digit_val]; omega)]
      congr 1
      simp only [digit_val, V4State.mk.injEq, true_and, and_true]
      omega
    · simp only [h100, h10, if_false, List.nil_append, List.cons_append,
        List.length_cons, List.length_nil]
      rw [parseIPv4Loop_digit _ _ _ _ (by rw [digit_val]; omega) (by rw [digit_val]; omega)
        (by simp) (by rw [digit_val]; simp only; omega)]
      congr 1
      simp only [digit_val, V4State.mk.injEq, true_and, and_true]
      omega

/-- One dot step of the IPv4 reader, before more input. -/
theorem parseIPv4Loop_dot_of_ne_nil (prev : Byte) (rest : List Byte) (fields : List Byte)
    (val pos digLen : Nat) (h1 : prev ≠ ch '.') (h2 : pos ≠ 3) (h3 : rest ≠ []) :
    parseIPv4Loop (some prev) (ch '.' :: rest)
        { fields := fields, val := val, pos := pos, digLen := digLen }
      = parseIPv4Loop (some (ch '.')) rest
          { fields := fields.set pos (Fin.ofNat val), val := 0, pos := pos + 1,
            digLen := 0 } := by
  cases rest with
  | nil => exact absurd rfl h3
  | cons r rest => exact parseIPv4Loop_dot prev r rest _ h1 h2

/-- A digit is no dot. -/
theorem digit_ne_dot (n : Nat) : digit n ≠ ch '.' := by
  intro h
  have := congrArg Fin.val h
  rw [digit_val, ch_dot] at this
  omega

/-- Dotted decimal, written out. -/
theorem appendTo4_eq (a b c d : Byte) :
    appendTo4 [] [a, b, c, d]
      = appendDecimal [] a ++ (ch '.' :: (appendDecimal [] b ++ (ch '.' ::
          (appendDecimal [] c ++ (ch '.' :: (appendDecimal [] d ++ [])))))) := by
  unfold appendTo4
  simp only [List.getD_cons_zero, List.getD_cons_succ]
  rw [appendDecimal_eq (_ ++ [ch '.']) d, appendDecimal_eq (_ ++ [ch '.']) c,
    appendDecimal_eq (_ ++ [ch '.']) b]
  simp [List.append_assoc]

/-- A byte is its own value. -/
theorem Fin_ofNat_val (x : Byte) : (Fin.ofNat x.val : Byte) = x := by
  apply Fin.ext
  simp [Fin.ofNat, Nat.mod_eq_of_lt x.isLt]

/-- Go `netip.parseIPv4` reads back what `appendTo4` writes. -/
theorem parseIPv4_appendTo4 (a b c d : Byte) :
    parseIPv4 (appendTo4 [] [a, b, c, d]) = some [a, b, c, d] := by
  unfold parseIPv4
  rw [appendTo4_eq]
  rw [parseIPv4Loop_octet]
  rw [parseIPv4Loop_dot_of_ne_nil _ _ _ _ _ _ (digit_ne_dot _) (by decide)
    (by simp [appendDecimal_ne_nil])]
  rw [parseIPv4Loop_octet]
  rw [parseIPv4Loop_dot_of_ne_nil _ _ _ _ _ _ (digit_ne_dot _) (by decide)
    (by simp [appendDecimal_ne_nil])]
  rw [parseIPv4Loop_octet]
  rw [parseIPv4Loop_dot_of_ne_nil _ _ _ _ _ _ (digit_ne_dot _) (by decide)
    (by simp [appendDecimal_ne_nil])]
  rw [parseIPv4Loop_octet]
  simp [parseIPv4Loop, Fin_ofNat_val]

/-- A digit is no colon. -/
theorem digit_ne_colon (n : Nat) : digit n ≠ ch ':' := by
  intro h
  have h2 : (ch ':').val = 58 := by decide
  have := congrArg Fin.val h
  rw [digit_val, h2] at this
  omega

/-- A digit is no percent sign. -/
theorem digit_ne_percent (n : Nat) : digit n ≠ ch '%' := by
  intro h
  have h2 : (ch '%').val = 37 := by decide
  have := congrArg Fin.val h
  rw [digit_val, h2] at this
  omega

/-- The separator search skips a decimal byte. -/
theorem find_sep_appendDecimal (x : Byte) (rest : List Byte) :
    (appendDecimal [] x ++ rest).find? (fun b => b = ch '.' ∨ b = ch ':' ∨ b = ch '%')
      = rest.find? (fun b => b = ch '.' ∨ b = ch ':' ∨ b = ch '%') := by
  unfold appendDecimal
  by_cases h100 : x.val ≥ 100 <;> by_cases h10 : x.val ≥ 10 <;>
    simp [h100, h10, List.find?, digit_ne_dot, digit_ne_colon, digit_ne_percent]

/-- Go `net.ParseIP` reads back dotted decimal, as an IPv4-mapped address. -/
theorem ParseIP_appendTo4 (v6 : NetV6) (a b c d : Byte) :
    ParseIP v6 (appendTo4 [] [a, b, c, d]) = some (v4InV6Prefix ++ [a, b, c, d]) := by
  unfold ParseIP
  rw [parseIPv4_appendTo4]
  rw [appendTo4_eq, find_sep_appendDecimal]
  simp [List.find?]

/-- C9, as the code has it: when the hostname lookup and the enumeration succeed
and the list holds a non-loopback IPv4 interface address, `GetSystemInfo` returns
no error, `IPAddress` is a non-empty string that `net.ParseIP` accepts, and
`Hostname` is the hostname the OS reported. -/
theorem C9_GetSystemInfo_parseable (v6 : NetV6) (os : OS) (hostname : GoString)
    (addrs : List Addr) (hh : os.Hostname = .ok hostname)
    (ha : os.InterfaceAddrs = .ok addrs)
    (hex : ∃ a ∈ addrs, nonLoopbackIPv4 a = true) :
    (GetSystemInfo v6 os).err = none
    ∧ (GetSystemInfo v6 os).val.IPAddress ≠ []
    ∧ (ParseIP v6 (GetSystemInfo v6 os).val.IPAddress).isSome = true
    ∧ (GetSystemInfo v6 os).val.Hostname = hostname := by
  obtain ⟨a0, ha0, hp0⟩ := hex
  cases hf : addrs.find? nonLoopbackIPv4 with
  | none =>
    have := List.find?_eq_none.mp hf a0 ha0
    exact absurd hp0 this
  | some a =>
    have hp := List.find?_some hf
    cases a with
    | IPAddr ip zone => simp [nonLoopbackIPv4] at hp
    | IPNet ip mask =>
      simp only [nonLoopbackIPv4, Bool.and_eq_true] at hp
      obtain ⟨p4, h4⟩ := Option.isSome_iff_exists.mp hp.2
      have hl := To4_length ip p4 h4
      have hs : scanAddrs v6 addrs = appendTo4 [] p4 := by
        rw [scanAddrs_find, hf]
        exact IPString_of_To4 v6 ip p4 h4
      have hne : scanAddrs v6 addrs ≠ [] := by
        rw [hs]
        exact appendTo4_ne_nil p4
      have hg : GetSystemInfo v6 os
          = ⟨{ Hostname := hostname, IPAddress := scanAddrs v6 addrs }, none,
              [.Hostname, .InterfaceAddrs]⟩ := by
        unfold GetSystemInfo
        rw [hh, ha]
        simp only
        rw [if_neg hne]
      rw [hg]
      refine ⟨rfl, hne, ?_, rfl⟩
      show (ParseIP v6 (scanAddrs v6 addrs)).isSome = true
      rw [hs]
      match p4, hl with
      | [a, b, c, d], _ =>
        rw [ParseIP_appendTo4]
        rfl

/-- The sample machine as an instance of C9. -/
theorem C9_GetSystemInfo_parseable_witness :
    (GetSystemInfo sampleV6 sampleOS).err = none
    ∧ (GetSystemInfo sampleV6 sampleOS).val.IPAddress ≠ []
    ∧ (ParseIP sampleV6 (GetSystemInfo sampleV6 sampleOS).val.IPAddress).isSome = true
    ∧ (GetSystemInfo sampleV6 sampleOS).val.Hostname = lit "test-host" :=
  C9_GetSystemInfo_parseable sampleV6 sampleOS (lit "test-host")
    [.IPNet [127, 0, 0, 1] [255, 0, 0, 0], .IPNet [192, 168, 1, 100] [255, 255, 255, 0]]
    rfl rfl ⟨.IPNet [192, 168, 1, 100] [255, 255, 255, 0], by decide, by decide⟩

/-- C9 as stated fails: a machine with a non-loopback IPv4 interface address
whose OS reports the empty hostname gets a result without error whose `Hostname`
is empty, and a machine whose hostname lookup fails gets an error. -/
theorem C9_hostname_not_checked :
    (∃ a ∈ [Addr.IPNet [192, 168, 1, 100] [255, 255, 255, 0]], nonLoopbackIPv4 a = true)
    ∧ unnamedOS.InterfaceAddrs = .ok [Addr.IPNet [192, 168, 1, 100] [255, 255, 255, 0]]
    ∧ (GetSystemInfo sampleV6 unnamedOS).err = none
    ∧ (GetSystemInfo sampleV6 unnamedOS).val.Hostname = []
    ∧ hostnameFailsOS.InterfaceAddrs = .ok [Addr.IPNet [192, 168, 1, 100] [255, 255, 255, 0]]
    ∧ (GetSystemInfo sampleV6 hostnameFailsOS).err ≠ none := by
  refine ⟨⟨Addr.IPNet [192, 168, 1, 100] [255, 255, 255, 0], by decide, by decide⟩, rfl,
    by decide, by decide, rfl, by decide⟩

/-- A text without `.`, `:` and `%` is no IP address. -/
theorem ParseIP_no_separator (v6 : NetV6) (s : GoString)
    (h : s.find? (fun b => b = ch '.' ∨ b = ch ':' ∨ b = ch '%') = none) :
    ParseIP v6 s = none := by
  unfold ParseIP
  rw [h]

/-- C10 (the code departs from the claim): whatever the IPv6 reader does,
`isValidHost` accepts the empty string and the host `$(reboot)`, which is neither
an IP address nor a domain name and contains the characters `$`, `(` and `)`;
a host with a space is rejected. -/
theorem C10_isValidHost_accepts (v6 : NetV6) :
    isValidHost v6 [] = true
    ∧ isValidHost v6 (lit "$(reboot)") = true
    ∧ isValidHost v6 (lit "a b") = false := by
  refine ⟨?_, ?_, ?_⟩ <;> unfold isValidHost
  · rw [ParseIP_no_separator v6 _ (by decide)]; decide
  · rw [ParseIP_no_separator v6 _ (by decide)]; decide
  · rw [ParseIP_no_separator v6 _ (by decide)]; decide

/-! ## Theorems: JSON round trip -/

/-- `formatBits` prepends to its accumulator. -/
theorem formatBits_acc (fuel u : Nat) (acc : GoString) :
    formatBits fuel u acc = formatBits fuel u [] ++ acc := by
  induction fuel generalizing u acc with
  | zero => simp [formatBits]
  | succ f ih =>
    unfold formatBits
    by_cases h : u ≥ 10
    · rw [if_pos h, if_pos h, ih (u / 10) (digit (u % 10) :: acc), ih (u / 10) [digit (u % 10)]]
      simp
    · rw [if_neg h, if_neg h]
      simp

/-- One step of `formatBits`. -/
theorem formatBits_succ (fuel u : Nat) :
    formatBits (fuel + 1) u []
      = if u ≥ 10 then formatBits fuel (u / 10) [] ++ [digit (u % 10)] else [digit u] := by
  conv => lhs; unfold formatBits
  by_cases h : u ≥ 10
  · rw [if_pos h, if_pos h, formatBits_acc]
  · rw [if_neg h, if_neg h]

/-- The digit loop over a concatenation. -/
theorem parseUintLoop_append (a b : List Byte) (n : Nat) :
    parseUintLoop (a ++ b) n = (parseUintLoop a n).bind (parseUintLoop b) := by
  induction a generalizing n with
  | nil => simp [parseUintLoop]
  | cons c r ih =>
    simp only [List.cons_append, parseUintLoop]
    split
    · split
      · rfl
      · split
        · rfl
        · exact ih _
    · rfl

/-- The digit loop reads back what `formatBits` writes. -/
theorem parseUintLoop_formatBits (fuel u : Nat) (hu : u ≤ 18446744073709551615)
    (hf : u < 10 ^ fuel) : parseUintLoop (formatBits fuel u []) 0 = some u := by
  induction fuel generalizing u with
  | zero => simp at hf; subst hf; simp [formatBits, parseUintLoop]
  | succ f ih =>
    rw [formatBits_succ]
    by_cases h : u ≥ 10
    · rw [if_pos h, parseUintLoop_append, ih (u / 10) (by omega)
        (by rw [Nat.pow_succ] at hf; omega)]
      simp only [Option.bind, parseUintLoop, digit_val]
      rw [if_pos (by omega), if_neg (by omega), if_neg (by omega)]
      congr 1
      omega
    · rw [if_neg h]
      simp only [parseUintLoop, digit_val]
      rw [if_pos (by omega), if_neg (by omega), if_neg (by omega)]
      congr 1
      omega

/-- `formatBits` writes at least one digit. -/
theorem formatBits_ne_nil (fuel u : Nat) : formatBits (fuel + 1) u [] ≠ [] := by
  rw [formatBits_succ]
  split <;> simp

/-- The digits of a positive number start with a non-zero digit. -/
theorem formatBits_head (fuel u : Nat) (hu : 1 ≤ u) (hf : u < 10 ^ fuel) :
    ∃ d ds, formatBits fuel u [] = d :: ds ∧ (49 ≤ d.val ∧ d.val ≤ 57)
      ∧ ∀ c ∈ ds, 48 ≤ c.val ∧ c.val ≤ 57 := by
  induction fuel generalizing u with
  | zero => simp at hf; omega
  | succ f ih =>
    rw [formatBits_succ]
    by_cases h : u ≥ 10
    · rw [if_pos h]
      obtain ⟨d, ds, h1, h2, h3⟩ := ih (u / 10) (by omega) (by rw [Nat.pow_succ] at hf; omega)
      refine ⟨d, ds ++ [digit (u % 10)], by rw [h1]; rfl, h2, ?_⟩
      intro c hc
      rcases List.mem_append.mp hc with hc | hc
      · exact h3 c hc
      · rw [List.mem_singleton.mp hc, digit_val]; omega
    · rw [if_neg h]
      exact ⟨digit u, [], rfl, by rw [digit_val]; omega, by simp⟩

/-- `spanDigits` stops at the first byte that is no digit. -/
theorem spanDigits_append (ds : List Byte) (c : Byte) (rest : List Byte)
    (hds : ∀ x ∈ ds, 48 ≤ x.val ∧ x.val ≤ 57) (hc : ¬ (48 ≤ c.val ∧ c.val ≤ 57)) :
    spanDigits (ds ++ c :: rest) = (ds, c :: rest) := by
  induction ds with
  | nil => simp [spanDigits, hc]
  | cons d ds ih =>
    have hd := hds d (List.mem_cons_self _ _)
    have ih2 := ih (fun x hx => hds x (List.mem_cons_of_mem _ hx))
    rw [List.cons_append, spanDigits, if_pos hd, ih2]

/-- A number without fraction and exponent. -/
theorem scanFraction_end (acc : GoString) (c : Byte) (rest : List Byte) (hc : endsNumber c) :
    scanFraction acc (c :: rest) = some (acc, c :: rest) := by
  obtain ⟨_, h1, h2, h3⟩ := hc
  simp [scanFraction, scanExponent, h1, h2, h3]

/-- Ten to the twentieth. -/
theorem pow20 : (10 : Nat) ^ 20 = 100000000000000000000 := by norm_num

/-- Go `strconv.ParseInt` reads back what `strconv.AppendInt` writes. -/
theorem ParseInt_AppendInt (i : Int) (h : inInt64 i) : ParseInt (AppendInt [] i) = some i := by
  obtain ⟨hlo, hhi⟩ := h
  unfold AppendInt
  by_cases hneg : i < 0
  · rw [if_pos hneg]
    have hn : (-i).toNat ≤ 9223372036854775808 := by omega
    have hp := parseUintLoop_formatBits 20 (-i).toNat (by omega) (by rw [pow20]; omega)
    have hne := formatBits_ne_nil 19 (-i).toNat
    simp only [List.nil_append, ParseInt]
    rw [if_neg (show ¬ (ch '-' = ch '+') by decide), if_pos trivial]
    unfold ParseUint
    rw [if_neg hne, hp]
    simp only
    rw [if_neg (show ¬ (-i).toNat > 9223372036854775808 by omega)]
    have hcast : ((-i).toNat : Int) = -i := Int.toNat_of_nonneg (by omega)
    rw [Int.ofNat_eq_coe, hcast]
    simp
  · rw [if_neg hneg]
    have hn : i.toNat ≤ 9223372036854775807 := by omega
    have hp := parseUintLoop_formatBits 20 i.toNat (by omega) (by rw [pow20]; omega)
    have hne := formatBits_ne_nil 19 i.toNat
    simp only [List.nil_append]
    have hdig : ∃ d ds, formatBits 20 i.toNat [] = d :: ds ∧ 48 ≤ d.val ∧ d.val ≤ 57 := by
      rw [formatBits_succ]
      by_cases h10 : i.toNat ≥ 10
      · rw [if_pos h10]
        obtain ⟨d, ds, h1, h2, _⟩ := formatBits_head 19 (i.toNat / 10) (by omega)
          (by norm_num; omega)
        exact ⟨d, ds ++ [digit (i.toNat % 10)], by rw [h1]; rfl, by omega, by omega⟩
      · rw [if_neg h10]
        exact ⟨digit i.toNat, [], rfl, by rw [digit_val]; omega, by rw [digit_val]; omega⟩
    obtain ⟨d, ds, hd, hd1, hd2⟩ := hdig
    have hplus : d ≠ ch '+' := by
      intro e; rw [e] at hd1; revert hd1; decide
    have hminus : d ≠ ch '-' := by
      intro e; rw [e] at hd1; revert hd1; decide
    have hpu : ParseUint (d :: ds) = some i.toNat := by
      unfold ParseUint
      rw [if_neg (by simp), ← hd, hp]
    rw [hd]
    simp only [ParseInt]
    rw [if_neg hplus, if_neg hminus, hpu]
    simp only
    rw [if_neg (show ¬ i.toNat ≥ 9223372036854775808 by omega)]
    have hcast : (i.toNat : Int) = i := Int.toNat_of_nonneg (by omega)
    rw [Int.ofNat_eq_coe, hcast]

/-- The scanner takes exactly the text `strconv.AppendInt` wrote when a byte that
ends a number follows it. -/
theorem scanNumber_AppendInt (i : Int) (h : inInt64 i) (c : Byte) (rest : List Byte)
    (hc : endsNumber c) :
    scanNumber (AppendInt [] i ++ c :: rest) = some (AppendInt [] i, c :: rest) := by
  obtain ⟨hlo, hhi⟩ := h
  have hcd := hc.1
  unfold AppendInt
  by_cases hneg : i < 0
  · rw [if_pos hneg]
    obtain ⟨d, ds, h1, h2, h3⟩ := formatBits_head 20 (-i).toNat (by omega)
      (by rw [pow20]; omega)
    have hd0 : d ≠ ch '0' := by
      intro e; rw [e] at h2; revert h2; decide
    rw [h1]
    simp only [List.nil_append, List.cons_append, scanNumber]
    rw [if_pos trivial, if_neg hd0, if_pos h2, spanDigits_append ds c rest h3 hcd]
    exact scanFraction_end _ c rest hc
  · rw [if_neg hneg]
    simp only [List.nil_append]
    by_cases h0 : i.toNat = 0
    · rw [h0]
      have : formatBits 20 0 [] = [ch '0'] := by decide
      rw [this]
      simp only [List.cons_append, List.nil_append, scanNumber]
      rw [if_pos trivial]
      exact scanFraction_end _ c rest hc
    · obtain ⟨d, ds, h1, h2, h3⟩ := formatBits_head 20 i.toNat (by omega)
        (by rw [pow20]; omega)
      have hd0 : d ≠ ch '0' := by
        intro e; rw [e] at h2; revert h2; decide
      have hdm : d ≠ ch '-' := by
        intro e; rw [e] at h2; revert h2; decide
      rw [h1]
      simp only [List.cons_append, scanNumber]
      rw [if_neg hdm, if_neg hd0, if_pos h2, spanDigits_append ds c rest h3 hcd]
      exact scanFraction_end _ c rest hc

/-- A byte from its value. -/
theorem byte_ext (n : Nat) (x : Byte) (h : n = x.val) : (Fin.ofNat n : Byte) = x := by
  apply Fin.ext
  simp only [Fin.ofNat]
  have := x.isLt
  omega

/-- Table entry of an invalid first byte. -/
theorem first_xx (b : Byte) (h : 0x80 ≤ b.val) (h2 : b.val < 0xC2 ∨ 0xF5 ≤ b.val) :
    first b = 0xF1 := by
  unfold first
  rcases h2 with h2 | h2
  · rw [if_neg (by omega), if_pos (by omega)]
  · rw [if_neg (by omega), if_neg (by omega), if_neg (by omega), if_neg (by omega),
      if_neg (by omega), if_neg (by omega), if_neg (by omega), if_neg (by omega),
      if_neg (by omega), if_neg (by omega)]

/-- Table entry of the first byte of a two-byte encoding. -/
theorem first_s1 (b : Byte) (h : 0xC2 ≤ b.val) (h2 : b.val < 0xE0) : first b = 0x02 := by
  unfold first
  rw [if_neg (by omega), if_neg (by omega), if_pos (by omega)]

/-- Table entry of `0xE0`. -/
theorem first_s2 (b : Byte) (h : b.val = 0xE0) : first b = 0x13 := by
  unfold first
  rw [if_neg (by omega), if_neg (by omega), if_neg (by omega), if_pos (by omega)]

/-- Table entry of the first byte of a plain three-byte encoding. -/
theorem first_s3 (b : Byte) (h : 0xE1 ≤ b.val) (h2 : b.val < 0xF0) (h3 : b.val ≠ 0xED) :
    first b = 0x03 := by
  unfold first
  by_cases h4 : b.val < 0xED
  · rw [if_neg (by omega), if_neg (by omega), if_neg (by omega), if_neg (by omega),
      if_pos (by omega)]
  · rw [if_neg (by omega), if_neg (by omega), if_neg (by omega), if_neg (by omega),
      if_neg (by omega), if_neg (by omega), if_pos (by omega)]

/-- Table entry of `0xED`. -/
theorem first_s4 (b : Byte) (h : b.val = 0xED) : first b = 0x23 := by
  unfold first
  rw [if_neg (by omega), if_neg (by omega), if_neg (by omega), if_neg (by omega),
    if_neg (by omega), if_pos (by omega)]

/-- Table entry of `0xF0`. -/
theorem first_s5 (b : Byte) (h : b.val = 0xF0) : first b = 0x34 := by
  unfold first
  rw [if_neg (by omega), if_neg (by omega), if_neg (by omega), if_neg (by omega),
    if_neg (by omega), if_neg (by omega), if_neg (by omega), if_pos (by omega)]

/-- Table entry of `0xF1` to `0xF3`. -/
theorem first_s6 (b : Byte) (h : 0xF1 ≤ b.val) (h2 : b.val < 0xF4) : first b = 0x04 := by
  unfold first
  rw [if_neg (by omega), if_neg (by omega), if_neg (by omega), if_neg (by omega),
    if_neg (by omega), if_neg (by omega), if_neg (by omega), if_neg (by omega),
    if_pos (by omega)]

/-- Table entry of `0xF4`. -/
theorem first_s7 (b : Byte) (h : b.val = 0xF4) : first b = 0x44 := by
  unfold first
  rw [if_neg (by omega), if_neg (by omega), if_neg (by omega), if_neg (by omega),
    if_neg (by omega), if_neg (by omega), if_neg (by omega), if_neg (by omega),
    if_neg (by omega), if_pos (by omega)]

/-- `DecodeRune` on an invalid first byte. -/
theorem DecodeRune_xx (b : Byte) (t : List Byte) (hx : first b = 0xF1) :
    DecodeRune (b :: t) = (RuneError, 1) := by
  simp only [DecodeRune, hx]
  rfl

/-- `DecodeRune` when the input is shorter than the first byte announces. -/
theorem DecodeRune_short (b : Byte) (t : List Byte) (x : Nat) (hx : first b = x)
    (h1 : x < 0xF0) (h2 : t.length + 1 < x % 8) :
    DecodeRune (b :: t) = (RuneError, 1) := by
  simp only [DecodeRune, hx]
  rw [if_neg (by omega), if_pos (by simp only [List.length_cons]; omega)]

/-- `DecodeRune` on a two-byte encoding. -/
theorem DecodeRune_two (b b1 : Byte) (t : List Byte) (x : Nat) (hx : first b = x)
    (h1 : x < 0xF0) (h2 : x % 8 = 2) :
    DecodeRune (b :: b1 :: t)
      = if b1.val < (acceptRanges (x / 16)).1 ∨ (acceptRanges (x / 16)).2 < b1.val then
          (RuneError, 1)
        else (b.val % 32 * 64 + b1.val % 64, 2) := by
  simp only [DecodeRune, hx]
  rw [if_neg (by omega), if_neg (by simp only [List.length_cons]; omega)]
  split
  · rfl
  · rw [if_pos (by omega)]

/-- `DecodeRune` on a three-byte encoding. -/
theorem DecodeRune_three (b b1 b2 : Byte) (t : List Byte) (x : Nat) (hx : first b = x)
    (h1 : x < 0xF0) (h2 : x % 8 = 3) :
    DecodeRune (b :: b1 :: b2 :: t)
      = if b1.val < (acceptRanges (x / 16)).1 ∨ (acceptRanges (x / 16)).2 < b1.val then
          (RuneError, 1)
        else if b2.val < 0x80 ∨ 0xBF < b2.val then (RuneError, 1)
        else (b.val % 16 * 4096 + b1.val % 64 * 64 + b2.val % 64, 3) := by
  simp only [DecodeRune, hx]
  rw [if_neg (by omega), if_neg (by simp only [List.length_cons]; omega)]
  split
  · rfl
  · rw [if_neg (by omega)]
    split
    · rfl
    · rw [if_pos (by omega)]

/-- `DecodeRune` on a four-byte encoding. -/
theorem DecodeRune_four (b b1 b2 b3 : Byte) (t : List Byte) (x : Nat) (hx : first b = x)
    (h1 : x < 0xF0) (h2 : x % 8 = 4) :
    DecodeRune (b :: b1 :: b2 :: b3 :: t)
      = if b1.val < (acceptRanges (x / 16)).1 ∨ (acceptRanges (x / 16)).2 < b1.val then
          (RuneError, 1)
        else if b2.val < 0x80 ∨ 0xBF < b2.val then (RuneError, 1)
        else if b3.val < 0x80 ∨ 0xBF < b3.val then (RuneError, 1)
        else
          (b.val % 8 * 262144 + b1.val % 64 * 4096 + b2.val % 64 * 64 + b3.val % 64, 4) := by
  simp only [DecodeRune, hx]
  rw [if_neg (by omega), if_neg (by simp only [List.length_cons]; omega)]
  split
  · rfl
  · rw [if_neg (by omega)]
    split
    · rfl
    · rw [if_neg (by omega)]

/-- A well-formed three-byte encoding is what `EncodeRune` writes for its rune. -/
theorem DecodeRune_valid_three (b : Byte) (rest : List Byte) (x lo hi : Nat)
    (hf : first b = x) (hx : x < 0xF0) (hsz : x % 8 = 3)
    (hacc : acceptRanges (x / 16) = (lo, hi))
    (hb : 0xE0 ≤ b.val ∧ b.val < 0xF0) (hlo : 0x80 ≤ lo) (hhi : hi ≤ 0xBF)
    (hE0 : b.val = 0xE0 → 0xA0 ≤ lo) (hED : b.val = 0xED → hi ≤ 0x9F)
    (hv : ¬ ((DecodeRune (b :: rest)).1 = RuneError ∧ (DecodeRune (b :: rest)).2 = 1)) :
    ∃ pre post r, b :: rest = pre ++ post ∧ 2 ≤ pre.length ∧ pre.length ≤ 4
      ∧ 0x80 ≤ r ∧ EncodeRune r = pre
      ∧ ∀ tail, DecodeRune (pre ++ tail) = (r, pre.length) := by
  rcases rest with _ | ⟨b1, _ | ⟨b2, t⟩⟩
  · exact absurd (by
      rw [DecodeRune_short b [] x hf hx (by simp only [List.length_nil]; omega)]
      exact ⟨rfl, rfl⟩) hv
  · exact absurd (by
      rw [DecodeRune_short b [b1] x hf hx (by simp only [List.length_cons, List.length_nil]; omega)]
      exact ⟨rfl, rfl⟩) hv
  · have hd := DecodeRune_three b b1 b2 t x hf hx hsz
    have hb1 := b1.isLt
    have hb2 := b2.isLt
    rw [hacc] at hd
    simp only at hd
    by_cases hr : b1.val < lo ∨ hi < b1.val
    · rw [if_pos hr] at hd
      exact absurd (by rw [hd]; exact ⟨rfl, rfl⟩) hv
    · rw [if_neg hr] at hd
      by_cases hr2 : b2.val < 0x80 ∨ 0xBF < b2.val
      · rw [if_pos hr2] at hd
        exact absurd (by rw [hd]; exact ⟨rfl, rfl⟩) hv
      · rw [if_neg hr2] at hd
        refine ⟨[b, b1, b2], t, b.val % 16 * 4096 + b1.val % 64 * 64 + b2.val % 64, rfl,
          by simp, by simp, by omega, ?_, ?_⟩
        · unfold EncodeRune
          rw [if_neg (by omega), if_neg (by omega), if_neg (by omega), if_pos (by omega)]
          rw [byte_ext _ b (by omega), byte_ext _ b1 (by omega), byte_ext _ b2 (by omega)]
        · intro tail
          have := DecodeRune_three b b1 b2 tail x hf hx hsz
          rw [hacc] at this
          simp only at this
          rw [if_neg hr, if_neg hr2] at this
          exact this

/-- A well-formed four-byte encoding is what `EncodeRune` writes for its rune. -/
theorem DecodeRune_valid_four (b : Byte) (rest : List Byte) (x lo hi : Nat)
    (hf : first b = x) (hx : x < 0xF0) (hsz : x % 8 = 4)
    (hacc : acceptRanges (x / 16) = (lo, hi))
    (hb : 0xF0 ≤ b.val ∧ b.val ≤ 0xF4) (hlo : 0x80 ≤ lo) (hhi : hi ≤ 0xBF)
    (hF0 : b.val = 0xF0 → 0x90 ≤ lo) (hF4 : b.val = 0xF4 → hi ≤ 0x8F)
    (hv : ¬ ((DecodeRune (b :: rest)).1 = RuneError ∧ (DecodeRune (b :: rest)).2 = 1)) :
    ∃ pre post r, b :: rest = pre ++ post ∧ 2 ≤ pre.length ∧ pre.length ≤ 4
      ∧ 0x80 ≤ r ∧ EncodeRune r = pre
      ∧ ∀ tail, DecodeRune (pre ++ tail) = (r, pre.length) := by
  rcases rest with _ | ⟨b1, _ | ⟨b2, _ | ⟨b3, t⟩⟩⟩
  · exact absurd (by
      rw [DecodeRune_short b [] x hf hx (by simp only [List.length_nil]; omega)]
      exact ⟨rfl, rfl⟩) hv
  · exact absurd (by
      rw [DecodeRune_short b [b1] x hf hx (by simp only [List.length_cons, List.length_nil]; omega)]
      exact ⟨rfl, rfl⟩) hv
  · exact absurd (by
      rw [DecodeRune_short b [b1, b2] x hf hx
        (by simp only [List.length_cons, List.length_nil]; omega)]
      exact ⟨rfl, rfl⟩) hv
  · have hd := DecodeRune_four b b1 b2 b3 t x hf hx hsz
    have hb1 := b1.isLt
    have hb2 := b2.isLt
    have hb3 := b3.isLt
    rw [hacc] at hd
    simp only at hd
    by_cases hr : b1.val < lo ∨ hi < b1.val
    · rw [if_pos hr] at hd
      exact absurd (by rw [hd]; exact ⟨rfl, rfl⟩) hv
    · rw [if_neg hr] at hd
      by_cases hr2 : b2.val < 0x80 ∨ 0xBF < b2.val
      · rw [if_pos hr2] at hd
        exact absurd (by rw [hd]; exact ⟨rfl, rfl⟩) hv
      · rw [if_neg hr2] at hd
        by_cases hr3 : b3.val < 0x80 ∨ 0xBF < b3.val
        · rw [if_pos hr3] at hd
          exact absurd (by rw [hd]; exact ⟨rfl, rfl⟩) hv
        · rw [if_neg hr3] at hd
          refine ⟨[b, b1, b2, b3], t,
            b.val % 8 * 262144 + b1.val % 64 * 4096 + b2.val % 64 * 64 + b3.val % 64, rfl,
            by simp, by simp, by omega, ?_, ?_⟩
          · unfold EncodeRune
            rw [if_neg (by omega), if_neg (by omega), if_neg (by omega), if_neg (by omega)]
            rw [byte_ext _ b (by omega), byte_ext _ b1 (by omega), byte_ext _ b2 (by omega),
              byte_ext _ b3 (by omega)]
          · intro tail
            have := DecodeRune_four b b1 b2 b3 tail x hf hx hsz
            rw [hacc] at this
            simp only at this
            rw [if_neg hr, if_neg hr2, if_neg hr3] at this
            exact this

/-- The shape of a well-formed multi-byte encoding at the head of the input: the
encoded bytes `pre`, the rune `r`, and that `EncodeRune` writes the same bytes. -/
theorem DecodeRune_valid (b : Byte) (rest : List Byte) (hb : 0x80 ≤ b.val)
    (hv : ¬ ((DecodeRune (b :: rest)).1 = RuneError ∧ (DecodeRune (b :: rest)).2 = 1)) :
    ∃ pre post r, b :: rest = pre ++ post ∧ 2 ≤ pre.length ∧ pre.length ≤ 4
      ∧ 0x80 ≤ r ∧ EncodeRune r = pre
      ∧ ∀ tail, DecodeRune (pre ++ tail) = (r, pre.length) := by
  have hlt := b.isLt
  by_cases c0 : b.val < 0xC2 ∨ 0xF5 ≤ b.val
  · exact absurd ⟨by rw [DecodeRune_xx b rest (first_xx b hb c0)],
      by rw [DecodeRune_xx b rest (first_xx b hb c0)]⟩ hv
  · by_cases c1 : b.val < 0xE0
    · have hf := first_s1 b (by omega) c1
      rcases rest with _ | ⟨b1, t⟩
      · exact absurd (by
          rw [DecodeRune_short b [] 2 hf (by decide) (by decide)]
          exact ⟨rfl, rfl⟩) hv
      · have hd := DecodeRune_two b b1 t 2 hf (by decide) (by decide)
        have hb1 := b1.isLt
        have hacc0 : acceptRanges (2 / 16) = (0x80, 0xBF) := rfl
        rw [hacc0] at hd
        simp only at hd
        by_cases hr : b1.val < 0x80 ∨ 0xBF < b1.val
        · rw [if_pos hr] at hd
          exact absurd (by rw [hd]; exact ⟨rfl, rfl⟩) hv
        · rw [if_neg hr] at hd
          refine ⟨[b, b1], t, b.val % 32 * 64 + b1.val % 64, rfl, by simp, by simp, by omega,
            ?_, ?_⟩
          · unfold EncodeRune
            rw [if_neg (by omega), if_pos (by omega)]
            rw [byte_ext _ b (by omega), byte_ext _ b1 (by omega)]
          · intro tail
            have := DecodeRune_two b b1 tail 2 hf (by decide) (by decide)
            rw [hacc0] at this
            simp only at this
            rw [if_neg hr] at this
            exact this
    · by_cases c2 : b.val < 0xF0
      · by_cases e0 : b.val = 0xE0
        · exact DecodeRune_valid_three b rest 0x13 0xA0 0xBF (first_s2 b e0) (by decide)
            (by decide) rfl (by omega) (by decide) (by decide) (by intro; decide)
            (by intro; omega) hv
        · by_cases ed : b.val = 0xED
          · exact DecodeRune_valid_three b rest 0x23 0x80 0x9F (first_s4 b ed) (by decide)
              (by decide) rfl (by omega) (by decide) (by decide) (by intro; omega)
              (by intro; decide) hv
          · exact DecodeRune_valid_three b rest 0x03 0x80 0xBF
              (first_s3 b (by omega) c2 ed) (by decide)
              (by decide) rfl (by omega) (by decide) (by decide) (by intro; omega)
              (by intro; omega) hv
      · by_cases f0 : b.val = 0xF0
        · exact DecodeRune_valid_four b rest 0x34 0x90 0xBF (first_s5 b f0) (by decide)
            (by decide) rfl (by omega) (by decide) (by decide) (by intro; decide)
            (by intro; omega) hv
        · by_cases f4 : b.val = 0xF4
          · exact DecodeRune_valid_four b rest 0x44 0x80 0x8F (first_s7 b f4) (by decide)
              (by decide) rfl (by omega) (by decide) (by decide) (by intro; omega)
              (by intro; decide) hv
          · exact DecodeRune_valid_four b rest 0x04 0x80 0xBF
              (first_s6 b (by omega) (by omega)) (by decide)
              (by decide) rfl (by omega) (by decide) (by decide) (by intro; omega)
              (by intro; omega) hv

/-- The decoder copies a plain ASCII byte. -/
theorem unquoteLoop_plain (f : Nat) (c : Byte) (tail : List Byte)
    (h1 : c.val ≠ 34) (h2 : c.val ≠ 92) (h3 : 0x20 ≤ c.val) (h4 : c.val < 0x80) :
    unquoteLoop (f + 1) (c :: tail) = (unquoteLoop f tail).map (fun p => (c :: p.1, p.2)) := by
  rw [unquoteLoop.eq_def]
  simp only
  rw [if_neg h1, if_neg h2, if_neg (by omega), if_pos h4]

/-- The decoder stops at the closing quote. -/
theorem unquoteLoop_quote (f : Nat) (tail : List Byte) :
    unquoteLoop (f + 1) (34 :: tail) = some ([], tail) := by
  rw [unquoteLoop.eq_def]
  rfl

/-- The decoder on a backslash escape. -/
theorem unquoteLoop_escape (f : Nat) (e : Byte) (tail : List Byte) :
    unquoteLoop (f + 1) (92 :: e :: tail)
      = if e.val = 34 ∨ e.val = 92 ∨ e.val = 47 then
          (unquoteLoop f tail).map (fun p => (e :: p.1, p.2))
        else if e = ch 'b' then (unquoteLoop f tail).map (fun p => (8 :: p.1, p.2))
        else if e = ch 'f' then (unquoteLoop f tail).map (fun p => (12 :: p.1, p.2))
        else if e = ch 'n' then (unquoteLoop f tail).map (fun p => (10 :: p.1, p.2))
        else if e = ch 'r' then (unquoteLoop f tail).map (fun p => (13 :: p.1, p.2))
        else if e = ch 't' then (unquoteLoop f tail).map (fun p => (9 :: p.1, p.2))
        else if e = ch 'u' then
          match getu4 (92 :: e :: tail) with
          | none => none
          | some rr =>
            if IsSurrogate rr then
              match getu4 (tail.drop 4) with
              | some rr1 =>
                if utf16DecodeRune rr rr1 ≠ RuneError then
                  (unquoteLoop f ((tail.drop 4).drop 6)).map
                    (fun p => (EncodeRune (utf16DecodeRune rr rr1) ++ p.1, p.2))
                else
                  (unquoteLoop f (tail.drop 4)).map
                    (fun p => (EncodeRune RuneError ++ p.1, p.2))
              | none =>
                (unquoteLoop f (tail.drop 4)).map (fun p => (EncodeRune RuneError ++ p.1, p.2))
            else (unquoteLoop f (tail.drop 4)).map (fun p => (EncodeRune rr ++ p.1, p.2))
        else none := by
  rw [unquoteLoop]
  rfl

/-- A hexadecimal digit has its value. -/
theorem hexVal_hexDigit (k : Nat) (hk : k < 16) : hexVal (hexDigit k) = some k := by
  interval_cases k <;> rfl

/-- The decoder on a `\\u` escape of a rune that is no surrogate. -/
theorem unquoteLoop_u4 (f : Nat) (a b c d : Byte) (tail : List Byte) (x3 x2 x1 x0 : Nat)
    (ha : hexVal a = some x3) (hb : hexVal b = some x2) (hc : hexVal c = some x1)
    (hd : hexVal d = some x0)
    (hs : IsSurrogate (((x3 * 16 + x2) * 16 + x1) * 16 + x0) = false) :
    unquoteLoop (f + 1) (92 :: ch 'u' :: a :: b :: c :: d :: tail)
      = (unquoteLoop f tail).map
          (fun p => (EncodeRune (((x3 * 16 + x2) * 16 + x1) * 16 + x0) ++ p.1, p.2)) := by
  rw [unquoteLoop_escape]
  rw [if_neg (by decide), if_neg (by decide), if_neg (by decide), if_neg (by decide),
    if_neg (by decide), if_neg (by decide), if_pos rfl]
  have hg : getu4 (92 :: ch 'u' :: a :: b :: c :: d :: tail)
      = some (((x3 * 16 + x2) * 16 + x1) * 16 + x0) := by
    simp only [getu4]
    rw [if_pos (by decide), ha, hb, hc, hd]
  rw [hg]
  simp only [hs]
  rfl

/-- A byte is determined by its value. -/
theorem byte_eq_of_val (b : Byte) (n : Nat) (hn : n < 256) (h : b.val = n) :
    b = Fin.ofNat n := by
  apply Fin.ext
  simp only [Fin.ofNat]
  omega

/-- The decoder undoes the escape the encoder writes for an ASCII byte. -/
theorem unquoteLoop_escapeByte (f : Nat) (b : Byte) (tail : List Byte) (hb : b.val < 0x80) :
    unquoteLoop (f + 1) (escapeByte b ++ tail)
      = (unquoteLoop f tail).map (fun p => (b :: p.1, p.2)) := by
  unfold escapeByte
  by_cases h1 : b.val = 92 ∨ b.val = 34
  · rw [if_pos h1]
    show unquoteLoop (f + 1) (92 :: b :: tail) = _
    rw [unquoteLoop_escape, if_pos (by omega)]
  · rw [if_neg h1]
    by_cases h8 : b.val = 8
    · rw [if_pos h8]
      show unquoteLoop (f + 1) (92 :: ch 'b' :: tail) = _
      rw [unquoteLoop_escape, if_neg (by decide), if_pos rfl,
        byte_eq_of_val b 8 (by decide) h8]
      rfl
    · rw [if_neg h8]
      by_cases h12 : b.val = 12
      · rw [if_pos h12]
        show unquoteLoop (f + 1) (92 :: ch 'f' :: tail) = _
        rw [unquoteLoop_escape, if_neg (by decide), if_neg (by decide), if_pos rfl,
          byte_eq_of_val b 12 (by decide) h12]
        rfl
      · rw [if_neg h12]
        by_cases h10 : b.val = 10
        · rw [if_pos h10]
          show unquoteLoop (f + 1) (92 :: ch 'n' :: tail) = _
          rw [unquoteLoop_escape, if_neg (by decide), if_neg (by decide), if_neg (by decide),
            if_pos rfl, byte_eq_of_val b 10 (by decide) h10]
          rfl
        · rw [if_neg h10]
          by_cases h13 : b.val = 13
          · rw [if_pos h13]
            show unquoteLoop (f + 1) (92 :: ch 'r' :: tail) = _
            rw [unquoteLoop_escape, if_neg (by decide), if_neg (by decide),
              if_neg (by decide), if_neg (by decide), if_pos rfl,
              byte_eq_of_val b 13 (by decide) h13]
            rfl
          · rw [if_neg h13]
            by_cases h9 : b.val = 9
            · rw [if_pos h9]
              show unquoteLoop (f + 1) (92 :: ch 't' :: tail) = _
              rw [unquoteLoop_escape, if_neg (by decide), if_neg (by decide),
                if_neg (by decide), if_neg (by decide), if_neg (by decide), if_pos rfl,
                byte_eq_of_val b 9 (by decide) h9]
              rfl
            · rw [if_neg h9]
              show unquoteLoop (f + 1) (92 :: ch 'u' :: ch '0' :: ch '0'
                :: hexDigit (b.val / 16) :: hexDigit (b.val % 16) :: tail) = _
              rw [unquoteLoop_u4 f (ch '0') (ch '0') _ _ tail 0 0 (b.val / 16) (b.val % 16) rfl rfl
                (hexVal_hexDigit _ (by omega)) (hexVal_hexDigit _ (by omega))
                (by simp only [IsSurrogate, decide_eq_false_iff_not]; omega)]
              have hr : ((0 * 16 + 0) * 16 + b.val / 16) * 16 + b.val % 16 = b.val := by omega
              rw [hr]
              unfold EncodeRune
              rw [if_pos (by omega), byte_ext _ b rfl]
              rfl

/-- `DecodeRune` on an ASCII byte. -/
theorem DecodeRune_ascii (b : Byte) (t : List Byte) (hb : b.val < 0x80) :
    DecodeRune (b :: t) = (b.val, 1) := by
  have hf : first b = 0xF0 := by
    unfold first
    rw [if_pos hb]
  simp only [DecodeRune, hf]
  rfl

/-- An escape is not empty. -/
theorem escapeByte_length_pos (b : Byte) : 1 ≤ (escapeByte b).length := by
  unfold escapeByte
  split_ifs <;> simp

/-- The decoder reads back every valid UTF-8 string the encoder quoted. -/
theorem unquoteLoop_appendStringLoop (n : Nat) (s : GoString) (rest : List Byte) (fuel : Nat)
    (hn : s.length ≤ n) (hvalid : validLoop n s = true)
    (hfuel : (appendStringLoop n s).length + 1 ≤ fuel) :
    unquoteLoop fuel (appendStringLoop n s ++ 34 :: rest) = some (s, rest) := by
  induction n generalizing s fuel with
  | zero =>
    have hs : s = [] := List.length_eq_zero.mp (Nat.le_zero.mp hn)
    subst hs
    obtain ⟨f, rfl⟩ : ∃ f, fuel = f + 1 := ⟨fuel - 1, by omega⟩
    simp only [appendStringLoop, List.nil_append]
    exact unquoteLoop_quote f rest
  | succ n ih =>
    obtain ⟨f, rfl⟩ : ∃ f, fuel = f + 1 := ⟨fuel - 1, by omega⟩
    cases s with
    | nil =>
      simp only [appendStringLoop, List.nil_append]
      exact unquoteLoop_quote f rest
    | cons b r =>
      have hlen : r.length ≤ n := by simp only [List.length_cons] at hn; omega
      by_cases hb : b.val < 0x80
      · -- an ASCII byte
        have hd := DecodeRune_ascii b r hb
        have hvr : validLoop n r = true := by
          simp only [validLoop, hd, List.drop_succ_cons, List.drop_zero] at hvalid
          rw [if_neg (by rintro ⟨h, _⟩; unfold RuneError at h; omega)] at hvalid
          exact hvalid
        by_cases hsafe : htmlSafe b = true
        · have henc : appendStringLoop (n + 1) (b :: r) = b :: appendStringLoop n r := by
            simp only [appendStringLoop]
            rw [if_pos hb, if_pos hsafe]
          rw [henc] at hfuel ⊢
          simp only [List.length_cons] at hfuel
          have hs2 := hsafe
          simp only [htmlSafe, decide_eq_true_eq] at hs2
          rw [List.cons_append, unquoteLoop_plain f b _ (by omega) (by omega) (by omega) hb,
            ih r f hlen hvr (by omega)]
          rfl
        · have henc : appendStringLoop (n + 1) (b :: r)
              = escapeByte b ++ appendStringLoop n r := by
            simp only [appendStringLoop]
            rw [if_pos hb, if_neg hsafe]
          rw [henc] at hfuel ⊢
          have hpos := escapeByte_length_pos b
          simp only [List.length_append] at hfuel
          rw [List.append_assoc, unquoteLoop_escapeByte f b _ hb, ih r f hlen hvr (by omega)]
          rfl
      · -- a multi-byte encoding
        have hv : ¬ ((DecodeRune (b :: r)).1 = RuneError ∧ (DecodeRune (b :: r)).2 = 1) := by
          intro hc
          simp only [validLoop] at hvalid
          rw [if_pos hc] at hvalid
          exact absurd hvalid (by decide)
        obtain ⟨pre, post, rr, hsplit, hl2, hl4, hrr, henc, hdec⟩ :=
          DecodeRune_valid b r (by omega) hv
        have hd : DecodeRune (b :: r) = (rr, pre.length) := by
          rw [hsplit]; exact hdec post
        have hdrop : (b :: r).drop pre.length = post := by
          rw [hsplit]; simp
        have htake : (b :: r).take pre.length = pre := by
          rw [hsplit]; simp
        have hd4 : DecodeRune ((b :: r).take 4) = (rr, pre.length) := by
          rw [hsplit, List.take_append_eq_append_take, List.take_of_length_le hl4]
          exact hdec _
        have hvp : validLoop n post = true := by
          simp only [validLoop] at hvalid
          rw [if_neg hv, hd] at hvalid
          simp only at hvalid
          rw [hdrop] at hvalid
          exact hvalid
        have hpl : post.length ≤ n := by
          have := congrArg List.length hsplit
          simp only [List.length_cons, List.length_append] at this hn
          omega
        have hne : ¬ (rr = RuneError ∧ pre.length = 1) := by omega
        obtain ⟨p0, pre', hpre⟩ : ∃ p0 pre', pre = p0 :: pre' := by
          cases pre with
          | nil => simp at hl2
          | cons p0 pre' => exact ⟨p0, pre', rfl⟩
        have hp0 : p0 = b := by
          rw [hpre] at hsplit
          simp only [List.cons_append, List.cons.injEq] at hsplit
          exact hsplit.1.symm
        by_cases hls : rr = 0x2028 ∨ rr = 0x2029
        · have henc2 : appendStringLoop (n + 1) (b :: r)
              = [92, ch 'u', ch '2', ch '0', ch '2', hexDigit (rr % 16)]
                  ++ appendStringLoop n post := by
            simp only [appendStringLoop]
            rw [if_neg hb]
            simp only [hd4]
            rw [if_neg hne, if_pos hls, hdrop]
          rw [henc2] at hfuel ⊢
          simp only [List.length_append, List.length_cons, List.length_nil] at hfuel
          show unquoteLoop (f + 1) (92 :: ch 'u' :: ch '2' :: ch '0' :: ch '2'
            :: hexDigit (rr % 16) :: (appendStringLoop n post ++ 34 :: rest)) = _
          rw [unquoteLoop_u4 f (ch '2') (ch '0') (ch '2') _ _ 2 0 2 (rr % 16) rfl rfl rfl
            (hexVal_hexDigit _ (by omega))
            (by simp only [IsSurrogate, decide_eq_false_iff_not]; omega)]
          have hr : ((2 * 16 + 0) * 16 + 2) * 16 + rr % 16 = rr := by omega
          rw [hr, ih post f hpl hvp (by omega), henc, hsplit]
          rfl
        · have henc2 : appendStringLoop (n + 1) (b :: r) = pre ++ appendStringLoop n post := by
            simp only [appendStringLoop]
            rw [if_neg hb]
            simp only [hd4]
            rw [if_neg hne, if_neg hls, hdrop, htake]
          rw [henc2] at hfuel ⊢
          simp only [List.length_append] at hfuel
          have hstep : unquoteLoop (f + 1) (pre ++ (appendStringLoop n post ++ 34 :: rest))
              = (unquoteLoop f (appendStringLoop n post ++ 34 :: rest)).map
                  (fun p => (EncodeRune rr ++ p.1, p.2)) := by
            have hdd := hdec (appendStringLoop n post ++ 34 :: rest)
            have hbb := b.isLt
            rw [hpre, hp0] at hdd ⊢
            rw [List.cons_append] at hdd ⊢
            rw [unquoteLoop.eq_def]
            simp only
            rw [if_neg (by omega), if_neg (by omega), if_neg (by omega), if_neg hb]
            simp only [hdd]
            rw [← hp0, ← List.cons_append, ← hpre]
            simp
          rw [List.append_assoc, hstep, ih post f hpl hvp (by omega), henc, hsplit]
          rfl

/-- A quoted string followed by more input scans back to the string. -/
theorem scanString_appendString (s : GoString) (rest : List Byte) (hv : ValidString s = true) :
    scanString (appendStringLoop s.length s ++ 34 :: rest) = some (s, rest) := by
  unfold scanString
  exact unquoteLoop_appendStringLoop s.length s rest _ (Nat.le_refl _) hv
    (by simp only [List.length_append, List.length_cons]; omega)

/-- `AppendInt` appends to its buffer. -/
theorem AppendInt_eq (b : GoString) (i : Int) : AppendInt b i = b ++ AppendInt [] i := by
  unfold AppendInt
  split <;> simp

/-- `appendString` appends to its buffer. -/
theorem appendString_eq (dst src : GoString) :
    appendString dst src = dst ++ 34 :: (appendStringLoop src.length src ++ [34]) := by
  unfold appendString
  simp

/-- A scanned number is a scanned value. -/
theorem scanValue_of_scanNumber (f depth : Nat) (s : List Byte) (p : GoString × List Byte)
    (h : scanNumber s = some p) : scanValue (f + 1) depth s = some (.number p.1, p.2) := by
  cases s with
  | nil => simp [scanNumber] at h
  | cons c r =>
    have hc : c = ch '-' ∨ c = ch '0' ∨ (49 ≤ c.val ∧ c.val ≤ 57) := by
      by_contra hcon
      simp only [not_or] at hcon
      simp only [scanNumber] at h
      rw [if_neg hcon.1, if_neg hcon.2.1, if_neg hcon.2.2] at h
      cases h
    have h1 : c.val ≠ 123 := by
      rcases hc with hc | hc | hc
      · rw [hc]; decide
      · rw [hc]; decide
      · omega
    have h2 : c.val ≠ 91 := by
      rcases hc with hc | hc | hc
      · rw [hc]; decide
      · rw [hc]; decide
      · omega
    have h3 : c.val ≠ 34 := by
      rcases hc with hc | hc | hc
      · rw [hc]; decide
      · rw [hc]; decide
      · omega
    have h4 : c ≠ ch 't' := by
      rcases hc with hc | hc | hc
      · rw [hc]; decide
      · rw [hc]; decide
      · intro e; rw [e] at hc; revert hc; decide
    have h5 : c ≠ ch 'f' := by
      rcases hc with hc | hc | hc
      · rw [hc]; decide
      · rw [hc]; decide
      · intro e; rw [e] at hc; revert hc; decide
    have h6 : c ≠ ch 'n' := by
      rcases hc with hc | hc | hc
      · rw [hc]; decide
      · rw [hc]; decide
      · intro e; rw [e] at hc; revert hc; decide
    rw [scanValue.eq_def]
    simp only
    rw [if_neg h1, if_neg h2, if_neg h3, if_neg h4, if_neg h5, if_neg h6, h]
    rfl

/-- Nothing is skipped before a byte that is no white space. -/
theorem skipSpace_of_not_space (c : Byte) (r : List Byte) (h : isSpace c = false) :
    skipSpace (c :: r) = c :: r := by
  simp [skipSpace, h]

/-- One member of an object whose key and value scan as given. -/
theorem scanMembers_member (f depth : Nat) (key kenc : GoString) (c : Byte)
    (vtext rest : List Byte) (v : JValue) (acc : List (GoString × JValue)) (sep : Byte)
    (hk : scanString (kenc ++ 34 :: 58 :: c :: (vtext ++ sep :: rest))
      = some (key, 58 :: c :: (vtext ++ sep :: rest)))
    (hc : isSpace c = false) (hsep : isSpace sep = false)
    (hv : scanValue f depth (c :: (vtext ++ sep :: rest)) = some (v, sep :: rest)) :
    scanMembers (f + 1) depth (34 :: (kenc ++ 34 :: 58 :: c :: (vtext ++ sep :: rest))) acc
      = if sep.val = 44 then scanMembers f depth (skipSpace rest) (acc ++ [(key, v)])
        else if sep.val = 125 then some (.object (acc ++ [(key, v)]), rest)
        else none := by
  rw [scanMembers.eq_def]
  simp only
  rw [if_pos (by decide), hk]
  simp only
  rw [skipSpace_of_not_space 58 _ (by decide)]
  simp only
  rw [if_pos (by decide), skipSpace_of_not_space c _ hc, hv]
  simp only
  rw [skipSpace_of_not_space sep _ hsep]

/-- A key without escapes scans to itself. -/
theorem scanString_plain (s : GoString) (tail : List Byte)
    (h1 : appendStringLoop s.length s = s) (h2 : ValidString s = true) :
    scanString (s ++ 34 :: tail) = some (s, tail) := by
  have := scanString_appendString s tail h2
  rw [h1] at this
  exact this

/-- The literal `true`. -/
theorem scanValue_true (f depth : Nat) (tail : List Byte) :
    scanValue (f + 1) depth (ch 't' :: (lit "rue" ++ tail)) = some (.bool true, tail) := by
  rw [scanValue.eq_def]
  rfl

/-- The literal `false`. -/
theorem scanValue_false (f depth : Nat) (tail : List Byte) :
    scanValue (f + 1) depth (ch 'f' :: (lit "alse" ++ tail)) = some (.bool false, tail) := by
  rw [scanValue.eq_def]
  rfl

/-- A quoted valid UTF-8 string as a value. -/
theorem scanValue_string (f depth : Nat) (s : GoString) (tail : List Byte)
    (hv : ValidString s = true) :
    scanValue (f + 1) depth (34 :: (appendStringLoop s.length s ++ 34 :: tail))
      = some (.string s, tail) := by
  rw [scanValue.eq_def]
  simp only
  rw [if_neg (by decide), if_neg (by decide), if_pos (by decide),
    scanString_appendString s tail hv]
  rfl

/-- The text of an integer as a value. -/
theorem scanValue_int (f depth : Nat) (i : Int) (hi : inInt64 i) (sep : Byte)
    (tail : List Byte) (hsep : endsNumber sep) :
    scanValue (f + 1) depth (AppendInt [] i ++ sep :: tail)
      = some (.number (AppendInt [] i), sep :: tail) :=
  scanValue_of_scanNumber f depth _ _ (scanNumber_AppendInt i hi sep tail hsep)

/-- The text of an integer starts with a byte that is no white space. -/
theorem AppendInt_cons (i : Int) (hi : inInt64 i) :
    ∃ c v, AppendInt [] i = c :: v ∧ isSpace c = false := by
  obtain ⟨hlo, hhi⟩ := hi
  unfold AppendInt
  by_cases hneg : i < 0
  · rw [if_pos hneg]
    exact ⟨ch '-', _, rfl, by decide⟩
  · rw [if_neg hneg]
    by_cases h0 : i.toNat = 0
    · rw [h0]
      exact ⟨ch '0', [], by decide, by decide⟩
    · obtain ⟨d, ds, h1, h2, _⟩ := formatBits_head 20 i.toNat (by omega)
        (by rw [pow20]; omega)
      refine ⟨d, ds, by rw [h1]; rfl, ?_⟩
      simp only [isSpace, decide_eq_false_iff_not]
      omega

/-- A comma ends a number. -/
theorem endsNumber_comma : endsNumber 44 := by
  unfold endsNumber
  decide

/-- A closing brace ends a number. -/
theorem endsNumber_brace : endsNumber 125 := by
  unfold endsNumber
  decide

/-- The text of a Go `bool`, split at its first byte. -/
theorem scanValue_bool (b : Bool) :
    ∃ c v, appendBool [] b = c :: v ∧ isSpace c = false
      ∧ ∀ f depth tail, scanValue (f + 1) depth (c :: (v ++ tail)) = some (.bool b, tail) := by
  cases b
  · exact ⟨ch 'f', lit "alse", by decide, by decide, scanValue_false⟩
  · exact ⟨ch 't', lit "rue", by decide, by decide, scanValue_true⟩

/-- `appendBool` appends to its buffer. -/
theorem appendBool_eq (dst : GoString) (b : Bool) : appendBool dst b = dst ++ appendBool [] b := by
  unfold appendBool
  cases b <;> simp

/-- The start of an object: the scanner enters the member list. -/
theorem scanValue_object (f : Nat) (tail : List Byte) :
    scanValue (f + 1) 0 (123 :: 34 :: tail) = scanMembers f 1 (34 :: tail) [] := by
  rw [scanValue.eq_def]
  rfl

/-- An object of three members, with enough fuel. -/
theorem scanValue_three_members (f : Nat) (k1 k2 k3 : GoString) (c1 c2 c3 : Byte)
    (v1 v2 v3 tail : List Byte) (j1 j2 j3 : JValue)
    (hk1 : ∀ t, scanString (k1 ++ 34 :: t) = some (k1, t))
    (hk2 : ∀ t, scanString (k2 ++ 34 :: t) = some (k2, t))
    (hk3 : ∀ t, scanString (k3 ++ 34 :: t) = some (k3, t))
    (hc1 : isSpace c1 = false) (hc2 : isSpace c2 = false) (hc3 : isSpace c3 = false)
    (hj1 : ∀ g d t, scanValue (g + 1) d (c1 :: (v1 ++ 44 :: t)) = some (j1, 44 :: t))
    (hj2 : ∀ g d t, scanValue (g + 1) d (c2 :: (v2 ++ 44 :: t)) = some (j2, 44 :: t))
    (hj3 : ∀ g d t, scanValue (g + 1) d (c3 :: (v3 ++ 125 :: t)) = some (j3, 125 :: t)) :
    scanValue (f + 5) 0
        (123 :: 34 :: (k1 ++ 34 :: 58 :: c1 :: (v1 ++ 44 ::
          (34 :: (k2 ++ 34 :: 58 :: c2 :: (v2 ++ 44 ::
            (34 :: (k3 ++ 34 :: 58 :: c3 :: (v3 ++ 125 :: tail)))))))))
      = some (.object [(k1, j1), (k2, j2), (k3, j3)], tail) := by
  rw [scanValue_object]
  rw [scanMembers_member (f + 3) 1 k1 k1 c1 v1 _ j1 [] 44 (hk1 _) hc1 (by decide) (hj1 _ _ _)]
  rw [if_pos (by decide), skipSpace_of_not_space _ _ (by decide)]
  rw [scanMembers_member (f + 2) 1 k2 k2 c2 v2 _ j2 _ 44 (hk2 _) hc2 (by decide) (hj2 _ _ _)]
  rw [if_pos (by decide), skipSpace_of_not_space _ _ (by decide)]
  rw [scanMembers_member (f + 1) 1 k3 k3 c3 v3 _ j3 _ 125 (hk3 _) hc3 (by decide) (hj3 _ _ _)]
  rw [if_neg (by decide), if_pos (by decide)]
  rfl

/-- An object of two members, with enough fuel. -/
theorem scanValue_two_members (f : Nat) (k1 k2 : GoString) (c1 c2 : Byte)
    (v1 v2 tail : List Byte) (j1 j2 : JValue)
    (hk1 : ∀ t, scanString (k1 ++ 34 :: t) = some (k1, t))
    (hk2 : ∀ t, scanString (k2 ++ 34 :: t) = some (k2, t))
    (hc1 : isSpace c1 = false) (hc2 : isSpace c2 = false)
    (hj1 : ∀ g d t, scanValue (g + 1) d (c1 :: (v1 ++ 44 :: t)) = some (j1, 44 :: t))
    (hj2 : ∀ g d t, scanValue (g + 1) d (c2 :: (v2 ++ 125 :: t)) = some (j2, 125 :: t)) :
    scanValue (f + 4) 0
        (123 :: 34 :: (k1 ++ 34 :: 58 :: c1 :: (v1 ++ 44 ::
          (34 :: (k2 ++ 34 :: 58 :: c2 :: (v2 ++ 125 :: tail))))))
      = some (.object [(k1, j1), (k2, j2)], tail) := by
  rw [scanValue_object]
  rw [scanMembers_member (f + 2) 1 k1 k1 c1 v1 _ j1 [] 44 (hk1 _) hc1 (by decide) (hj1 _ _ _)]
  rw [if_pos (by decide), skipSpace_of_not_space _ _ (by decide)]
  rw [scanMembers_member (f + 1) 1 k2 k2 c2 v2 _ j2 _ 125 (hk2 _) hc2 (by decide) (hj2 _ _ _)]
  rw [if_neg (by decide), if_pos (by decide)]
  rfl

/-- The scanner reads the encoding of a `PingResult` as an object of three
members. -/
theorem scanDocument_MarshalPingResult (r : PingResult) (hT : inInt64 r.Time)
    (hP : inInt64 r.Packets) :
    scanDocument (MarshalPingResult r ++ [10])
      = some (.object [(lit "successful", .bool r.Successful),
          (lit "time", .number (AppendInt [] r.Time)),
          (lit "packets", .number (AppendInt [] r.Packets))]) := by
  obtain ⟨c1, v1, hb, hc1, hs1⟩ := scanValue_bool r.Successful
  obtain ⟨c2, v2, ht, hc2⟩ := AppendInt_cons r.Time hT
  obtain ⟨c3, v3, hp, hc3⟩ := AppendInt_cons r.Packets hP
  have hk1 : lit "\"successful\":" = 34 :: (lit "successful" ++ [34, 58]) := by decide
  have hk2 : lit ",\"time\":" = 44 :: 34 :: (lit "time" ++ [34, 58]) := by decide
  have hk3 : lit ",\"packets\":" = 44 :: 34 :: (lit "packets" ++ [34, 58]) := by decide
  have hdata : MarshalPingResult r ++ [10]
      = 123 :: 34 :: (lit "successful" ++ 34 :: 58 :: c1 :: (v1 ++ 44 ::
          (34 :: (lit "time" ++ 34 :: 58 :: c2 :: (v2 ++ 44 ::
            (34 :: (lit "packets" ++ 34 :: 58 :: c3 :: (v3 ++ 125 :: [10])))))))) := by
    unfold MarshalPingResult
    simp only
    rw [AppendInt_eq _ r.Packets, AppendInt_eq _ r.Time, appendBool_eq, hb, ht, hp, hk1, hk2,
      hk3]
    simp only [List.append_assoc, List.cons_append, List.nil_append]
  have hlen : 5 ≤ (MarshalPingResult r ++ [10]).length + 1 := by
    rw [hdata]
    simp only [List.length_cons, List.length_append]
    omega
  obtain ⟨f, hf⟩ := Nat.exists_eq_add_of_le hlen
  unfold scanDocument
  rw [hf, hdata, skipSpace_of_not_space _ _ (by decide), Nat.add_comm 5 f]
  rw [scanValue_three_members f (lit "successful") (lit "time") (lit "packets") c1 c2 c3
    v1 v2 v3 [10] (.bool r.Successful) (.number (AppendInt [] r.Time))
    (.number (AppendInt [] r.Packets))
    (fun t => scanString_plain _ t (by decide) (by decide))
    (fun t => scanString_plain _ t (by decide) (by decide))
    (fun t => scanString_plain _ t (by decide) (by decide))
    hc1 hc2 hc3 (fun g d t => hs1 g d _)
    (fun g d t => by
      have := scanValue_int g d r.Time hT 44 t endsNumber_comma
      rw [ht] at this
      rw [ht]
      exact this)
    (fun g d t => by
      have := scanValue_int g d r.Packets hP 125 t endsNumber_brace
      rw [hp] at this
      rw [hp]
      exact this)]
  rfl

/-- Decoding the encoding of a `PingResult` gives the record back. -/
theorem Unmarshal_MarshalPingResult (equalFold : GoString → GoString → Bool) (r : PingResult)
    (hT : inInt64 r.Time) (hP : inInt64 r.Packets) :
    UnmarshalPingResult equalFold (MarshalPingResult r ++ [10]) = some r := by
  unfold UnmarshalPingResult
  rw [scanDocument_MarshalPingResult r hT hP]
  simp only [List.foldlM, storePingResult]
  have h1 : findField equalFold [lit "successful", lit "time", lit "packets"] (lit "successful")
      = some 0 := rfl
  have h2 : findField equalFold [lit "successful", lit "time", lit "packets"] (lit "time")
      = some 1 := rfl
  have h3 : findField equalFold [lit "successful", lit "time", lit "packets"] (lit "packets")
      = some 2 := rfl
  rw [h1]
  simp only [storeBool, Option.map, Option.bind, bind]
  rw [h2]
  simp only [storeInt, ParseInt_AppendInt r.Time hT, Option.map, Option.bind]
  rw [h3]
  simp only [storeInt, ParseInt_AppendInt r.Packets hP, Option.map, Option.bind, pure]

/-- The scanner reads the encoding of a `SystemInfo` as an object of two
members. -/
theorem scanDocument_MarshalSystemInfo (s : SystemInfo) (hH : ValidString s.Hostname = true)
    (hI : ValidString s.IPAddress = true) :
    scanDocument (MarshalSystemInfo s ++ [10])
      = some (.object [(lit "hostname", .string s.Hostname),
          (lit "ip_address", .string s.IPAddress)]) := by
  have hk1 : lit "\"hostname\":" = 34 :: (lit "hostname" ++ [34, 58]) := by decide
  have hk2 : lit ",\"ip_address\":" = 44 :: 34 :: (lit "ip_address" ++ [34, 58]) := by decide
  have hdata : MarshalSystemInfo s ++ [10]
      = 123 :: 34 :: (lit "hostname" ++ 34 :: 58 :: 34 ::
          ((appendStringLoop s.Hostname.length s.Hostname ++ [34]) ++ 44 ::
          (34 :: (lit "ip_address" ++ 34 :: 58 :: 34 ::
            ((appendStringLoop s.IPAddress.length s.IPAddress ++ [34]) ++ 125 :: [10]))))) := by
    unfold MarshalSystemInfo
    simp only
    rw [appendString_eq _ s.IPAddress, appendString_eq _ s.Hostname, hk1, hk2]
    simp only [List.append_assoc, List.cons_append, List.nil_append]
  have hlen : 4 ≤ (MarshalSystemInfo s ++ [10]).length + 1 := by
    rw [hdata]
    simp only [List.length_cons, List.length_append]
    omega
  obtain ⟨f, hf⟩ := Nat.exists_eq_add_of_le hlen
  unfold scanDocument
  rw [hf, hdata, skipSpace_of_not_space _ _ (by decide), Nat.add_comm 4 f]
  rw [scanValue_two_members f (lit "hostname") (lit "ip_address") 34 34 _ _ [10]
    (.string s.Hostname) (.string s.IPAddress)
    (fun t => scanString_plain _ t (by decide) (by decide))
    (fun t => scanString_plain _ t (by decide) (by decide))
    (by decide) (by decide)
    (fun g d t => by
      have := scanValue_string g d s.Hostname (44 :: t) hH
      simp only [List.append_assoc, List.cons_append, List.nil_append]
      exact this)
    (fun g d t => by
      have := scanValue_string g d s.IPAddress (125 :: t) hI
      simp only [List.append_assoc, List.cons_append, List.nil_append]
      exact this)]
  rfl

/-- Decoding the encoding of a `SystemInfo` with valid UTF-8 strings gives the
record back. -/
theorem Unmarshal_MarshalSystemInfo (equalFold : GoString → GoString → Bool) (s : SystemInfo)
    (hH : ValidString s.Hostname = true) (hI : ValidString s.IPAddress = true) :
    UnmarshalSystemInfo equalFold (MarshalSystemInfo s ++ [10]) = some s := by
  unfold UnmarshalSystemInfo
  rw [scanDocument_MarshalSystemInfo s hH hI]
  simp only [List.foldlM, storeSystemInfo]
  have h1 : findField equalFold [lit "hostname", lit "ip_address"] (lit "hostname")
      = some 0 := rfl
  have h2 : findField equalFold [lit "hostname", lit "ip_address"] (lit "ip_address")
      = some 1 := rfl
  rw [h1]
  simp only [storeString, Option.map, Option.bind, bind]
  rw [h2]
  simp only [storeString, Option.map, Option.bind, pure]

/-- C5, as the code has it: for every `PingResult` whose duration and packet
count are in the 64-bit range and every `SystemInfo` whose two strings are valid
UTF-8, decoding the JSON a handler writes (the marshalled record and a newline)
gives back exactly the record, whatever case folding the decoder uses for keys. -/
theorem C5_json_round_trip (equalFold : GoString → GoString → Bool) (r : PingResult)
    (s : SystemInfo) (hT : inInt64 r.Time) (hP : inInt64 r.Packets)
    (hH : ValidString s.Hostname = true) (hI : ValidString s.IPAddress = true) :
    UnmarshalPingResult equalFold (Encode {} (MarshalPingResult r)).body = some r
    ∧ UnmarshalSystemInfo equalFold (Encode {} (MarshalSystemInfo s)).body = some s := by
  rw [(Encode_fresh _).2, (Encode_fresh _).2]
  exact ⟨Unmarshal_MarshalPingResult equalFold r hT hP,
    Unmarshal_MarshalSystemInfo equalFold s hH hI⟩

/-- The records of the handler tests as an instance of C5. -/
theorem C5_json_round_trip_witness :
    UnmarshalPingResult (fun a b => a == b)
        (Encode {} (MarshalPingResult ⟨true, 123000000, 4⟩)).body
        = some ⟨true, 123000000, 4⟩
    ∧ UnmarshalSystemInfo (fun a b => a == b)
        (Encode {} (MarshalSystemInfo ⟨lit "test-host", lit "192.168.1.100"⟩)).body
        = some ⟨lit "test-host", lit "192.168.1.100"⟩ :=
  C5_json_round_trip (fun a b => a == b) ⟨true, 123000000, 4⟩
    ⟨lit "test-host", lit "192.168.1.100"⟩ (by decide) (by decide) (by decide) (by decide)

/-- C5 as stated fails: a hostname that is the single byte `0xFF` (not valid
UTF-8) is encoded as the escape of U+FFFD and decodes to the three bytes
`EF BF BD`, not to the hostname. -/
theorem C5_invalid_utf8_not_preserved :
    ValidString [0xFF] = false
    ∧ (Encode {} (MarshalSystemInfo ⟨[0xFF], lit "10.0.0.1"⟩)).body
        = lit "\x7b\"hostname\":\"\\ufffd\",\"ip_address\":\"10.0.0.1\"\x7d\n"
    ∧ UnmarshalSystemInfo (fun a b => a == b)
        (Encode {} (MarshalSystemInfo ⟨[0xFF], lit "10.0.0.1"⟩)).body
        = some ⟨[0xEF, 0xBF, 0xBD], lit "10.0.0.1"⟩
    ∧ UnmarshalSystemInfo (fun a b => a == b)
        (Encode {} (MarshalSystemInfo ⟨[0xFF], lit "10.0.0.1"⟩)).body
        ≠ some ⟨[0xFF], lit "10.0.0.1"⟩ := by
  refine ⟨by decide, by decide, by decide, by decide⟩

end Pingtest
